import Mathlib

/-!
# DistributedDataEncryption: worker registry, job dispatch and fallback codec of `src/ui/main.js`

A shallow embedding of `src/ui/main.js` (`startWorker`, `stopWorker`, `stopAllWorkers`,
`processFile` with the `error` and `close` handlers of its master process, the file IPC
handlers, `fallbackEncryption`, `fallbackDecryption`) and of `updateOutputPath` in
`src/ui/renderer.js`.

Modelling conventions

* A JavaScript string is a `List Char`.  The string methods used by the source
  (`endsWith`, `lastIndexOf`, `substring`, `replace`, `+`) are only ever called with
  ASCII patterns, for which code-point and UTF-16 indexing cut a string at the same places.
* A Node `Buffer` is a list of bytes, a byte is a `Fin 256`.
* The file system is explicit state.  Every `fs.*Sync` call that can throw consults the
  field `throws` of the state, an arbitrary table saying which calls fail in this
  environment; reading a path that holds no regular file always throws.
* `log.*` calls have no effect on the modelled state and are left out.
* Node's `path` module and the clock are not part of the repository; they are the
  fields of a `Host` that the functions take as a parameter.
* The global `workerProcesses` is an explicit list passed in and out.  Messages to the renderer
  are returned as a list of `Event`s; `mainWindow` is the boolean saying whether the window
  still exists.  External processes are not run: a spawned worker is a `ChildProcess` value, and
  the master is represented by its argument list, its exit code and the file system it left.
-/

namespace DDE

/-! ## JavaScript strings -/

abbrev JSString := List Char

/-- JavaScript `s.endsWith(suffix)`. -/
def endsWith (s suffix : JSString) : Bool := suffix.isSuffixOf s

/-- Backward scan of `lastIndexOf`: the largest position `≤ i` at which `pat` occurs in `s`,
or `-1`. -/
def lastIndexFrom (s pat : JSString) : Nat → Int
  | 0 => if pat.isPrefixOf s then 0 else -1
  | i + 1 => if pat.isPrefixOf (s.drop (i + 1)) then ((i + 1 : Nat) : Int) else lastIndexFrom s pat i

/-- JavaScript `s.lastIndexOf(pat)`: index of the last occurrence of `pat` in `s`, `-1` when there is none. -/
def lastIndexOf (s pat : JSString) : Int := lastIndexFrom s pat s.length

/-- Clamping of a `substring` argument to `0 .. s.length`. -/
def clampIndex (s : JSString) (i : Int) : Nat := min i.toNat s.length

/-- JavaScript `s.substring(a, b)`: both arguments are clamped to `0 .. s.length` and swapped when
`a > b`. -/
def substring (s : JSString) (a b : Int) : JSString :=
  let lo := min (clampIndex s a) (clampIndex s b)
  let hi := max (clampIndex s a) (clampIndex s b)
  (s.drop lo).take (hi - lo)

/-- JavaScript `s.substring(a)`: from `a` to the end of the string. -/
def substringFrom (s : JSString) (a : Int) : JSString := substring s a s.length

/-- JavaScript `s.replace(pat, rep)` with a string pattern: only the first occurrence is replaced. -/
def replace : JSString → JSString → JSString → JSString
  | [], pat, rep => if pat.isPrefixOf [] then rep else []
  | c :: cs, pat, rep =>
    if pat.isPrefixOf (c :: cs) then rep ++ (c :: cs).drop pat.length
    else c :: replace cs pat rep

/-- Index normalisation of `slice`: a negative index counts from the end, and the result is
kept within `0 .. s.length`. -/
def sliceIndex (s : JSString) (i : Int) : Nat :=
  if i < 0 then ((s.length : Int) + i).toNat else min i.toNat s.length

/-- JavaScript `s.slice(a, b)`. -/
def slice (s : JSString) (a b : Int) : JSString :=
  (s.drop (sliceIndex s a)).take (sliceIndex s b - sliceIndex s a)

/-! ## Buffers and the repeating-key XOR loop -/

abbrev Byte := Fin 256

abbrev Buffer := List Byte

/-- Node `Buffer.from(s, 'utf8')`: the UTF-8 encoding of `s`. -/
def Buffer.from (s : JSString) : Buffer :=
  s.flatMap fun c => (String.utf8EncodeChar c).map fun u => u.val

/-- The value of `key[j]` used as an operand of `^`: a byte of the key, and `undefined`, which `^` coerces
to `0`, when `j` is not an index of the key. -/
def keyAt (key : Buffer) (j : Nat) : Nat :=
  match key[j]? with
  | some k => k.val
  | none => 0

/-- The assignment `out[i] = b ^ k`: the 32-bit XOR, stored into a byte array (kept modulo 256). -/
def xorByte (b : Byte) (k : Nat) : Byte := Fin.ofNat (b.val ^^^ k)

/-- The loop `for (let i = 0; i < inputData.length; i++) out[i] = inputData[i] ^ key[i % key.length]`
of `fallbackEncryption` and `fallbackDecryption`, started at index `i`.  With an empty key,
`i % 0` is `NaN` and `key[NaN]` is `undefined`; here `i % 0 = i` is out of range as well. -/
def xorLoop (key : Buffer) : Nat → Buffer → Buffer
  | _, [] => []
  | i, b :: rest => xorByte b (keyAt key (i % key.length)) :: xorLoop key (i + 1) rest

/-- The hardcoded key `Buffer.from('FALLBACK_ENCRYPTION_KEY_DEMO_ONLY', 'utf8')`. -/
def defaultKey : Buffer := Buffer.from "FALLBACK_ENCRYPTION_KEY_DEMO_ONLY".toList

/-! ## Output path resolution (`processFile`, `updateOutputPath`) -/

/-- The `mode` argument of `processFile`; its two call sites pass `'encrypt'` and `'decrypt'`. -/
inductive Mode
  | encrypt
  | decrypt
  deriving DecidableEq, Repr

/-- The value of the variable `outputFile` of `processFile(inputFile, outputFile, workers, mode)`
after the resolution block (main.js lines 195-224).  The requested `outputFile` is a string and
is falsy exactly when it is empty. -/
def processFile.outputFile (inputFile outputFile : JSString) (mode : Mode) : JSString :=
  if outputFile.isEmpty then
    if mode = Mode.encrypt then
      inputFile ++ ".encrypted".toList
    else
      if endsWith inputFile ".encrypted".toList then
        substring inputFile 0 (lastIndexOf inputFile ".encrypted".toList)
      else
        let lastDotIndex := lastIndexOf inputFile ".".toList
        if lastDotIndex ≠ -1 then
          let extension := substringFrom inputFile lastDotIndex
          let basePath := substring inputFile 0 lastDotIndex
          basePath ++ ".decrypted".toList ++ extension
        else
          inputFile ++ ".decrypted".toList
  else if mode = Mode.encrypt && !endsWith outputFile ".encrypted".toList then
    outputFile ++ ".encrypted".toList
  else if mode = Mode.decrypt && outputFile == inputFile then
    inputFile ++ ".decrypted".toList
  else
    outputFile

/-- The value that `updateOutputPath` (renderer.js) stores into the output field, `none` when it
returns early because the input field is empty. -/
def updateOutputPath (inputPath : JSString) (isEncrypt : Bool) : Option JSString :=
  if inputPath.isEmpty then none
  else if isEncrypt then
    some (inputPath ++ ".encrypted".toList)
  else
    if endsWith inputPath ".encrypted".toList then
      some (substring inputPath 0 (lastIndexOf inputPath ".encrypted".toList))
    else
      let lastDotIndex := lastIndexOf inputPath ".".toList
      if lastDotIndex ≠ -1 then
        let extension := substringFrom inputPath lastDotIndex
        let basePath := substring inputPath 0 lastDotIndex
        some (basePath ++ ".decrypted".toList ++ extension)
      else
        some (inputPath ++ ".decrypted".toList)

/-! ## File system -/

/-- The throwing `fs` calls made by the fallback codec. -/
inductive FsCall
  | readFileSync (file : JSString)
  | writeFileSync (file : JSString)
  | mkdirSync (dir : JSString)
  | copyFileSync (src dest : JSString)
  | appendFileSync (file : JSString)
  | unlinkSync (file : JSString)
  | statSync (file : JSString)
  deriving DecidableEq

/-- File-system state: the regular files with their contents, the directories, and the calls
that throw in this environment (permissions, full disk, locked file). -/
structure FileSystem where
  files : JSString → Option Buffer
  dirs : JSString → Bool
  throws : FsCall → Bool

namespace FileSystem

/-- Node `fs.existsSync(p)`: something, a file or a directory, is at `p`; never throws. -/
def existsSync (fs : FileSystem) (p : JSString) : Bool := (fs.files p).isSome || fs.dirs p

/-- The state after the regular file `p` has been given the content `data`. -/
def store (fs : FileSystem) (p : JSString) (data : Buffer) : FileSystem :=
  { fs with files := fun q => if q = p then some data else fs.files q }

/-- Node `fs.readFileSync(p)`: the content of the regular file `p`; `none` when the call throws. -/
def readFileSync (fs : FileSystem) (p : JSString) : Option Buffer :=
  if fs.throws (FsCall.readFileSync p) then none else fs.files p

/-- Node `fs.writeFileSync(p, data)`: creates or replaces `p`; `none` when the call throws. -/
def writeFileSync (fs : FileSystem) (p : JSString) (data : Buffer) : Option FileSystem :=
  if fs.throws (FsCall.writeFileSync p) then none else some (fs.store p data)

/-- Node `fs.mkdirSync(d, { recursive: true })`; `none` when the call throws.  Only `d` itself is
recorded: the ancestors it may create are never looked at by the modelled code. -/
def mkdirSync (fs : FileSystem) (d : JSString) : Option FileSystem :=
  if fs.throws (FsCall.mkdirSync d) then none
  else some { fs with dirs := fun q => if q = d then true else fs.dirs q }

/-- Node `fs.copyFileSync(src, dest)`: `dest` gets the content of `src`; `none` when the call
throws, which it does when `src` is not a regular file. -/
def copyFileSync (fs : FileSystem) (src dest : JSString) : Option FileSystem :=
  if fs.throws (FsCall.copyFileSync src dest) then none
  else match fs.files src with
    | some data => some (fs.store dest data)
    | none => none

/-- Node `fs.appendFileSync(p, data)`: appends to `p`, creating it when absent; `none` when the
call throws. -/
def appendFileSync (fs : FileSystem) (p : JSString) (data : Buffer) : Option FileSystem :=
  if fs.throws (FsCall.appendFileSync p) then none
  else some (fs.store p ((fs.files p).getD [] ++ data))

/-- Node `fs.unlinkSync(p)`: removes the regular file `p`; `none` when the call throws, which
it does when `p` is not a regular file. -/
def unlinkSync (fs : FileSystem) (p : JSString) : Option FileSystem :=
  if fs.throws (FsCall.unlinkSync p) then none
  else match fs.files p with
    | some _ => some { fs with files := fun q => if q = p then none else fs.files q }
    | none => none

/-- Node `fs.statSync(p)` used for its success only: `false` when the call throws, which it
does when nothing is at `p`. -/
def statSync (fs : FileSystem) (p : JSString) : Bool :=
  !fs.throws (FsCall.statSync p) && fs.existsSync p

end FileSystem

/-- What the code takes from the Node runtime: `path.dirname`, `path.join` (two arguments)
and `new Date().toISOString()`. -/
structure Host where
  dirname : JSString → JSString
  join : JSString → JSString → JSString
  toISOString : JSString

/-! ## Fallback codec (`fallbackEncryption`, `fallbackDecryption`) -/

/-- Function `fallbackEncryption(inputFile, outputFile)` (main.js lines 765-796): the returned boolean
and the file system it leaves.  A throwing call leaves the state reached so far and makes the
function return `false`. -/
def fallbackEncryption (fs : FileSystem) (inputFile outputFile : JSString) :
    Bool × FileSystem :=
  match fs.readFileSync inputFile with
  | none => (false, fs)
  | some inputData =>
    let key := Buffer.from "FALLBACK_ENCRYPTION_KEY_DEMO_ONLY".toList
    let encryptedData := xorLoop key 0 inputData
    match fs.writeFileSync outputFile encryptedData with
    | none => (false, fs)
    | some fs1 =>
      let keyFile := outputFile ++ ".key".toList
      match fs1.writeFileSync keyFile key with
      | none => (false, fs1)
      | some fs2 => (true, fs2)

/-- The array `possibleKeyFiles` of `fallbackDecryption` when its loop starts (lines 806-817):
three fixed candidates, with `outputFile + '.key'` put in front when it exists. -/
def fallbackDecryption.possibleKeyFiles (host : Host) (fs : FileSystem)
    (inputFile outputFile : JSString) : List JSString :=
  let possibleKeyFiles :=
    [ inputFile ++ ".key".toList,
      replace inputFile ".encrypted".toList [] ++ ".key".toList,
      host.join (host.dirname inputFile) "encryption_key.bin".toList ]
  if fs.existsSync (outputFile ++ ".key".toList) then
    (outputFile ++ ".key".toList) :: possibleKeyFiles
  else
    possibleKeyFiles

/-- The loop over `possibleKeyFiles` (lines 822-833): the first candidate that exists and can
be read gives `key` and `keySource`; a candidate whose read throws is skipped. `none` stands
for `key` still being `null` after the loop. -/
def fallbackDecryption.readKey (fs : FileSystem) : List JSString → Option (Buffer × JSString)
  | [] => none
  | keyFile :: rest =>
    if fs.existsSync keyFile then
      match fs.readFileSync keyFile with
      | some key => some (key, keyFile)
      | none => fallbackDecryption.readKey fs rest
    else fallbackDecryption.readKey fs rest

/-- The pair `(key, keySource)` of `fallbackDecryption` when its XOR loop starts (lines 806-840):
the key that was read, else the hardcoded key with source `'default key'`. -/
def fallbackDecryption.key (host : Host) (fs : FileSystem) (inputFile outputFile : JSString) :
    Buffer × JSString :=
  match fallbackDecryption.readKey fs
      (fallbackDecryption.possibleKeyFiles host fs inputFile outputFile) with
  | some found => found
  | none => (Buffer.from "FALLBACK_ENCRYPTION_KEY_DEMO_ONLY".toList, "default key".toList)

/-- The outer `try` block of `fallbackDecryption` (lines 801-865): `Except.ok` with the final
state when it reaches `return true`, `Except.error` with the state at the throwing call
otherwise. -/
def fallbackDecryption.primary (host : Host) (fs : FileSystem)
    (inputFile outputFile : JSString) : Except FileSystem FileSystem :=
  match fs.readFileSync inputFile with
  | none => Except.error fs
  | some inputData =>
    let key := (fallbackDecryption.key host fs inputFile outputFile).1
    let decryptedData := xorLoop key 0 inputData
    let outputDir := host.dirname outputFile
    match (if !fs.existsSync outputDir then fs.mkdirSync outputDir else some fs) with
    | none => Except.error fs
    | some fs1 =>
      match fs1.writeFileSync outputFile decryptedData with
      | none => Except.error fs1
      | some fs2 =>
        let verificationFile := outputFile ++ ".verified".toList
        match fs2.writeFileSync verificationFile
            (Buffer.from ("Decryption completed: ".toList ++ host.toISOString)) with
        | none => Except.error fs2
        | some fs3 => Except.ok fs3

/-- The `try` block of the `catch` clause of `fallbackDecryption` (lines 870-886), run from the
state `fs` at which the outer block threw; `false` when it throws in turn. -/
def fallbackDecryption.secondary (host : Host) (fs : FileSystem)
    (inputFile outputFile : JSString) : Bool × FileSystem :=
  let outputDir := host.dirname outputFile
  match (if !fs.existsSync outputDir then fs.mkdirSync outputDir else some fs) with
  | none => (false, fs)
  | some fs1 =>
    match fs1.copyFileSync inputFile outputFile with
    | none => (false, fs1)
    | some fs2 =>
      match fs2.appendFileSync outputFile
          (Buffer.from "\n\nTHIS IS A PLACEHOLDER FILE - ACTUAL DECRYPTION FAILED\n".toList) with
      | none => (false, fs2)
      | some fs3 => (true, fs3)

/-- Function `fallbackDecryption(inputFile, outputFile)` (main.js lines 798-892): the returned boolean
and the file system it leaves. -/
def fallbackDecryption (host : Host) (fs : FileSystem) (inputFile outputFile : JSString) :
    Bool × FileSystem :=
  match fallbackDecryption.primary host fs inputFile outputFile with
  | Except.ok fs1 => (true, fs1)
  | Except.error fs1 => fallbackDecryption.secondary host fs1 inputFile outputFile

/-! ## Concrete hosts and file systems for evaluation -/

/-- Function `path.dirname` as Node computes it on POSIX for a path without a trailing slash. -/
def posixDirname (p : JSString) : JSString :=
  let i := lastIndexOf p "/".toList
  if i = -1 then ".".toList else if i = 0 then "/".toList else substring p 0 i

/-- Function `path.join(dir, name)` as Node computes it on POSIX for a normalised `dir` and a plain
file name. -/
def posixJoin (dir name : JSString) : JSString :=
  if dir = ".".toList then name
  else if dir = "/".toList then dir ++ name
  else dir ++ "/".toList ++ name

/-- A POSIX host whose clock reads the start of 2024. -/
def posixHost : Host :=
  { dirname := posixDirname, join := posixJoin, toISOString := "2024-01-01T00:00:00.000Z".toList }

/-- The file system holding exactly the listed files and directories, on which no call throws
except a read of a path that is not a regular file. -/
def FileSystem.ofList (files : List (JSString × Buffer)) (dirs : List JSString) : FileSystem :=
  { files := fun p => files.lookup p, dirs := fun p => dirs.contains p, throws := fun _ => false }

/-- A directory `d` holding `plain.txt` with the eleven bytes of `hello world`. -/
def helloFs : FileSystem :=
  FileSystem.ofList [("d/plain.txt".toList, Buffer.from "hello world".toList)] ["d".toList]

/-- A directory `d` holding the input `f.encrypted` (bytes 1, 2, 3), the output's key file
`f.key` (byte 5), the input's key file `f.encrypted.key` (byte 7) and `encryption_key.bin`
(byte 9). -/
def allKeysFs : FileSystem :=
  FileSystem.ofList
    [ ("d/f.encrypted".toList, [1, 2, 3]),
      ("d/f.key".toList, [5]),
      ("d/f.encrypted.key".toList, [7]),
      ("d/encryption_key.bin".toList, [9]) ]
    ["d".toList]

/-- A directory `d` holding the input `g.encrypted` (bytes 1, 2, 3), the input's key file
`g.encrypted.key` (byte 7) and `encryption_key.bin` (byte 9); there is no `out.key`. -/
def twoKeysFs : FileSystem :=
  FileSystem.ofList
    [ ("d/g.encrypted".toList, [1, 2, 3]),
      ("d/g.encrypted.key".toList, [7]),
      ("d/encryption_key.bin".toList, [9]) ]
    ["d".toList]


/-- A directory `d` holding `h.encrypted`, the fallback encryption of `hello world`, and no key
file. -/
def noKeyFs : FileSystem :=
  FileSystem.ofList
    [("d/h.encrypted".toList, xorLoop defaultKey 0 (Buffer.from "hello world".toList))]
    ["d".toList]

/-- The file system `noKeyFs` in an environment where writing `d/h.txt` throws. -/
def lockedOutputFs : FileSystem :=
  { noKeyFs with throws := fun c => decide (c = FsCall.writeFileSync "d/h.txt".toList) }

/-! ## Worker registry (`startWorker`, `stopWorker`, the worker `close` handler) -/

/-- The `status` string of a registry entry: `'running'`, `'stopping'` or `'stopped'`. -/
inductive WorkerStatus
  | running
  | stopping
  | stopped
  deriving DecidableEq, Repr

/-- The `ChildProcess` object returned by `spawn`, identified by its pid. -/
structure ChildProcess where
  pid : Nat
  deriving DecidableEq, Repr

/-- An element of the array `workerProcesses`.  The field `process` is optional because
`stopWorker` tests its truthiness; `startWorker` always stores the spawned process. -/
structure WorkerInfo where
  id : Nat
  process : Option ChildProcess
  address : JSString
  status : WorkerStatus
  deriving DecidableEq, Repr

/-- The object `{ id, address, status }` returned by `startWorker`. -/
structure StartResult where
  id : Nat
  address : JSString
  status : WorkerStatus
  deriving DecidableEq, Repr

/-- Function `startWorker(address)` (main.js lines 57-111) once `spawn` has returned
`workerProcess`: the new value of `workerProcesses` and the returned object.  A `spawn` that
throws makes `startWorker` throw before the array is touched. -/
def startWorker (workerProcesses : List WorkerInfo) (address : JSString)
    (workerProcess : ChildProcess) : List WorkerInfo × StartResult :=
  let workerId := workerProcesses.length
  (workerProcesses ++
      [{ id := workerId, process := some workerProcess, address := address,
         status := WorkerStatus.running }],
    { id := workerId, address := address, status := WorkerStatus.running })

/-- The assignment `workerInfo.status = status` where `workerInfo` is
`workerProcesses.find(w => w.id === workerId)`: the first entry with that id is updated, and
nothing changes when there is none. -/
def setStatus : List WorkerInfo → Nat → WorkerStatus → List WorkerInfo
  | [], _, _ => []
  | w :: ws, workerId, status =>
    if w.id = workerId then { w with status := status } :: ws
    else w :: setStatus ws workerId status

/-- Function `stopWorker(workerId)` (main.js lines 114-148): the returned boolean and the new
value of `workerProcesses`.  `killThrows` says whether the kill call (`taskkill` on win32,
`process.kill('SIGTERM')` elsewhere) throws. -/
def stopWorker (workerProcesses : List WorkerInfo) (workerId : Nat) (killThrows : Bool) :
    Bool × List WorkerInfo :=
  match workerProcesses.find? (fun w => w.id == workerId) with
  | some workerInfo =>
    if workerInfo.process.isSome then
      if killThrows then (false, workerProcesses)
      else (true, setStatus workerProcesses workerId WorkerStatus.stopping)
    else (false, workerProcesses)
  | none => (false, workerProcesses)

/-- The `close` handler that `startWorker` registers for the worker it gave the id `workerId`
(main.js lines 96-107): the new value of `workerProcesses`. -/
def startWorker.onClose (workerProcesses : List WorkerInfo) (workerId : Nat) : List WorkerInfo :=
  setStatus workerProcesses workerId WorkerStatus.stopped

/-- A call on the registry: a `startWorker` whose `spawn` returned, a `stopWorker`, or the exit of
a worker process delivered to its `close` handler. -/
inductive RegistryCall
  | startWorker (address : JSString) (workerProcess : ChildProcess)
  | stopWorker (workerId : Nat) (killThrows : Bool)
  | workerClose (workerId : Nat)
  deriving DecidableEq, Repr

/-- The registry after a sequence of calls, together with the ids returned by its `startWorker`
calls, in call order. -/
def runRegistry : List WorkerInfo → List RegistryCall → List WorkerInfo × List Nat
  | workerProcesses, [] => (workerProcesses, [])
  | workerProcesses, RegistryCall.startWorker address workerProcess :: rest =>
    let started := startWorker workerProcesses address workerProcess
    let later := runRegistry started.1 rest
    (later.1, started.2.id :: later.2)
  | workerProcesses, RegistryCall.stopWorker workerId killThrows :: rest =>
    runRegistry (stopWorker workerProcesses workerId killThrows).2 rest
  | workerProcesses, RegistryCall.workerClose workerId :: rest =>
    runRegistry (startWorker.onClose workerProcesses workerId) rest

/-- The `(address, process)` pairs of the `startWorker` calls of a sequence, in call order. -/
def startsOf : List RegistryCall → List (JSString × ChildProcess)
  | [] => []
  | RegistryCall.startWorker address workerProcess :: rest =>
    (address, workerProcess) :: startsOf rest
  | _ :: rest => startsOf rest

/-- The part of a registry entry that `startWorker` assigns once and for all. -/
def WorkerInfo.identity (w : WorkerInfo) : Nat × JSString × Option ChildProcess :=
  (w.id, w.address, w.process)

/-- Three `startWorker` calls, a `stopWorker(1)`, and a fourth `startWorker`. -/
def fourStarts : List RegistryCall :=
  [ RegistryCall.startWorker "127.0.0.1:50051".toList { pid := 101 },
    RegistryCall.startWorker "127.0.0.1:50052".toList { pid := 102 },
    RegistryCall.startWorker "127.0.0.1:50053".toList { pid := 103 },
    RegistryCall.stopWorker 1 false,
    RegistryCall.startWorker "127.0.0.1:50054".toList { pid := 104 } ]

/-! ## Job dispatch (`processFile`, its `close` handler, the file IPC handlers) -/

/-- A message sent to the renderer on one of the channels `process-error`, `process-warning`,
`process-output` (payload `output`) and `process-completed` (payload `code`). -/
inductive Event
  | processError (output : JSString)
  | processWarning (output : JSString)
  | processOutput (output : JSString)
  | processCompleted (code : Int)
  deriving DecidableEq, Repr

/-- The guarded send `if (mainWindow) mainWindow.webContents.send(...)`: nothing is sent when
the window is gone. -/
def send (mainWindow : Bool) (events : List Event) : List Event :=
  if mainWindow then events else []

/-- The string passed as `mode`. -/
def Mode.keyword : Mode → JSString
  | Mode.encrypt => "encrypt".toList
  | Mode.decrypt => "decrypt".toList

/-- What `processFile` leaves behind when it returns: the argument list of the master process it
spawned (`none` when it returned `null`), the messages it sent, and the file system. -/
structure ProcessFileResult where
  spawned : Option (List JSString)
  events : List Event
  fs : FileSystem

/-- The block `if (!fs.existsSync(dir)) fs.mkdirSync(dir, { recursive: true })` inside a `try`
whose `catch` only logs (main.js lines 231-241 and 276-284). -/
def processFile.ensureDir (fs : FileSystem) (dir : JSString) : FileSystem :=
  if !fs.existsSync dir then (fs.mkdirSync dir).getD fs else fs

/-- The write-permission probe of main.js lines 312-328 and 367-384: `testFile` is written and
then removed, a failure to remove it being ignored; the boolean says whether the write
succeeded. -/
def processFile.probe (fs : FileSystem) (testFile : JSString) : Bool × FileSystem :=
  match fs.writeFileSync testFile (Buffer.from "test".toList) with
  | none => (false, fs)
  | some fs1 => (true, (fs1.unlinkSync testFile).getD fs1)

/-- Function `processFile(inputFile, outputFile, workers, mode)` (main.js lines 180-468) up to its
return; the handlers it registers on the master process run later.  The `statSync` of the input
(lines 244-250) only logs and is left out, and `spawn` is taken to return. -/
def processFile (host : Host) (mainWindow : Bool) (fs : FileSystem)
    (inputFile outputFile : JSString) (workers : List WorkerInfo) (mode : Mode) :
    ProcessFileResult :=
  if !fs.existsSync inputFile then
    { spawned := none,
      events := send mainWindow
        [ Event.processError ("Input file not found: ".toList ++ inputFile),
          Event.processCompleted 1 ],
      fs := fs }
  else
    let outputFile := processFile.outputFile inputFile outputFile mode
    let outputDir := host.dirname outputFile
    let fs1 := processFile.ensureDir fs outputDir
    let workerAddresses := workers.map fun w => w.address
    let args := [mode.keyword, inputFile, outputFile] ++ workerAddresses
    let checked : List Event × FileSystem :=
      if mode = Mode.decrypt then
        let testDir := host.dirname outputFile
        let fs2 := processFile.ensureDir fs1 testDir
        let possibleKeyFiles :=
          [ host.join (host.dirname inputFile) "encryption_key.bin".toList,
            inputFile ++ ".key".toList,
            replace inputFile ".encrypted".toList [] ++ ".key".toList ]
        let keyFileFound := possibleKeyFiles.any fun keyFile => fs2.existsSync keyFile
        let warning :=
          if !keyFileFound then
            send mainWindow [Event.processWarning
              "Warning: No encryption key file found. Will attempt decryption anyway.".toList]
          else []
        let probe := processFile.probe fs2
          (host.join (host.dirname outputFile) "decrypt_test_file.tmp".toList)
        (warning ++
          (if probe.1 then []
           else send mainWindow [Event.processError
             "Error: Cannot write to output directory. Decryption may fail.".toList]),
         probe.2)
      else ([], fs1)
    let probe := processFile.probe checked.2
      (host.join (host.dirname outputFile) "test_permission.tmp".toList)
    { spawned := some args,
      events := checked.1 ++
        (if probe.1 then []
         else send mainWindow [Event.processError
           "Warning: Cannot write to output directory. Encryption may fail.".toList]),
      fs := probe.2 }

/-- A call of the fallback codec made by the `close` handler. -/
inductive FallbackCall
  | fallbackEncryption (inputFile outputFile : JSString)
  | fallbackDecryption (inputFile outputFile : JSString)
  deriving DecidableEq, Repr

/-- What the `close` handler of the master process leaves behind: the messages it sent, the
file system, and the calls of the fallback codec it made. -/
structure CloseResult where
  events : List Event
  fs : FileSystem
  fallbacks : List FallbackCall

/-- The exit code of the master process in a template literal: a number, or `null` when the
process was killed by a signal. -/
def codeText : Option Int → JSString
  | none => "null".toList
  | some c => (toString c).toList

/-- The expression `code || 1`. -/
def codeOrOne : Option Int → Int
  | none => 1
  | some c => if c = 0 then 1 else c

/-- The variable `actualOutputPath` of the `close` handler (main.js lines 397-404), where
`outputFile` is the resolved output path. -/
def processFile.actualOutputPath (inputFile outputFile : JSString) (mode : Mode) : JSString :=
  if mode = Mode.decrypt then
    if outputFile.isEmpty && endsWith inputFile ".encrypted".toList then
      slice inputFile 0 (-(".encrypted".toList.length : Int))
    else outputFile
  else outputFile

/-- The artifact check and fallback of the `close` handler (main.js lines 406-454), before the
final `process-completed` message. -/
def processFile.onClose.handled (host : Host) (mainWindow : Bool) (fs : FileSystem)
    (inputFile outputFile actualOutputPath : JSString) (mode : Mode) (code : Option Int) :
    CloseResult :=
  if fs.existsSync outputFile || (mode = Mode.decrypt && fs.existsSync actualOutputPath) then
    let fileToCheck := if fs.existsSync outputFile then outputFile else actualOutputPath
    if fs.statSync fileToCheck then
      { events := send mainWindow [Event.processOutput
          ("File processing completed successfully. Output saved to ".toList ++ fileToCheck)],
        fs := fs, fallbacks := [] }
    else { events := [], fs := fs, fallbacks := [] }
  else
    if code ≠ some 0 || !fs.existsSync outputFile then
      let attempt : (Bool × FileSystem) × FallbackCall :=
        if mode = Mode.encrypt then
          (fallbackEncryption fs inputFile outputFile,
            FallbackCall.fallbackEncryption inputFile outputFile)
        else
          (fallbackDecryption host fs inputFile actualOutputPath,
            FallbackCall.fallbackDecryption inputFile actualOutputPath)
      let success := attempt.1.1
      if success then
        { events := send mainWindow [Event.processOutput
            ("File processing completed using fallback method. Output saved to ".toList ++
              (if mode = Mode.encrypt then outputFile else actualOutputPath))],
          fs := attempt.1.2, fallbacks := [attempt.2] }
      else
        { events := send mainWindow [Event.processError
            ("File processing failed with code: ".toList ++ codeText code ++
              ". Fallback method also failed.".toList)],
          fs := attempt.1.2, fallbacks := [attempt.2] }
    else { events := [], fs := fs, fallbacks := [] }

/-- The `close` handler that `processFile` registers on the master process (main.js lines
394-465), run with exit code `code` on the file system `fs` that the master left; `outputFile`
is the resolved output path held by the variable of that name. -/
def processFile.onClose (host : Host) (mainWindow : Bool) (fs : FileSystem)
    (inputFile outputFile : JSString) (mode : Mode) (code : Option Int) : CloseResult :=
  let actualOutputPath := processFile.actualOutputPath inputFile outputFile mode
  let handled :=
    processFile.onClose.handled host mainWindow fs inputFile outputFile actualOutputPath mode code
  let fileToCheck := if mode = Mode.encrypt then outputFile else actualOutputPath
  let finalSuccess := handled.fs.existsSync fileToCheck
  { events := handled.events ++
      send mainWindow [Event.processCompleted (if finalSuccess then 0 else codeOrOne code)],
    fs := handled.fs,
    fallbacks := handled.fallbacks }

/-- The filter `workerProcesses.filter(w => workerIds.includes(w.id))` of the file IPC
handlers. -/
def selectWorkers (workerProcesses : List WorkerInfo) (workerIds : List Nat) : List WorkerInfo :=
  workerProcesses.filter fun w => workerIds.contains w.id

/-- The handlers of `encrypt-file` and `decrypt-file` registered by `setupIPC` (main.js lines
510-550), which differ only in the mode they pass on. -/
def setupIPC.onFile (host : Host) (mainWindow : Bool) (fs : FileSystem)
    (workerProcesses : List WorkerInfo) (inputFile outputFile : JSString)
    (workerIds : List Nat) (mode : Mode) : ProcessFileResult :=
  let selectedWorkers := selectWorkers workerProcesses workerIds
  if selectedWorkers.length = 0 then
    { spawned := none,
      events := [Event.processError "No valid workers selected".toList, Event.processCompleted 1],
      fs := fs }
  else processFile host mainWindow fs inputFile outputFile selectedWorkers mode

/-- A directory `d` holding `plain.txt` and the artifact `plain.txt.encrypted`. -/
def artifactFs : FileSystem :=
  FileSystem.ofList
    [ ("d/plain.txt".toList, Buffer.from "hello world".toList),
      ("d/plain.txt.encrypted".toList, [1, 2, 3]) ]
    ["d".toList]

/-! ## Master process events, `stopAllWorkers`, and further file systems -/

/-- The `error` handler that `processFile` registers on the master process (main.js lines
349-356), run with the message of the error. -/
def processFile.onError (mainWindow : Bool) (message : JSString) : List Event :=
  send mainWindow
    [ Event.processError ("Process error: ".toList ++ message),
      Event.processCompleted (-1) ]

/-- An event of the master process delivered to the handlers of `processFile`: `error` with the
message of the error, or `close` with the exit code. -/
inductive MasterEvent
  | error (message : JSString)
  | close (code : Option Int)
  deriving DecidableEq, Repr

/-- The messages sent, and the file system left, when the handlers of a job run on a sequence of
master events; `outputFile` is the resolved output path. -/
def processFile.deliver (host : Host) (mainWindow : Bool) (inputFile outputFile : JSString)
    (mode : Mode) : FileSystem → List MasterEvent → List Event × FileSystem
  | fs, [] => ([], fs)
  | fs, MasterEvent.error message :: rest =>
    let later := processFile.deliver host mainWindow inputFile outputFile mode fs rest
    (processFile.onError mainWindow message ++ later.1, later.2)
  | fs, MasterEvent.close code :: rest =>
    let closed := processFile.onClose host mainWindow fs inputFile outputFile mode code
    let later := processFile.deliver host mainWindow inputFile outputFile mode closed.fs rest
    (closed.events ++ later.1, later.2)

/-- The codes of the `process-completed` messages of a list of messages, in order. -/
def completedCodes : List Event → List Int
  | [] => []
  | Event.processCompleted code :: rest => code :: completedCodes rest
  | _ :: rest => completedCodes rest

/-- The loop of `stopAllWorkers` (main.js lines 153-173): every entry with a process whose kill
call does not throw gets the status `'stopped'`. -/
def stopAllWorkers.marked (workerProcesses : List WorkerInfo) (killThrows : WorkerInfo → Bool) :
    List WorkerInfo :=
  workerProcesses.map fun worker =>
    if worker.process.isSome && !killThrows worker then
      { worker with status := WorkerStatus.stopped }
    else worker

/-- Function `stopAllWorkers()` (main.js lines 151-177): the new value of `workerProcesses`.  The
entries marked by the loop are dropped by the final `workerProcesses = []`. -/
def stopAllWorkers (workerProcesses : List WorkerInfo) (killThrows : WorkerInfo → Bool) :
    List WorkerInfo :=
  let _stopped := stopAllWorkers.marked workerProcesses killThrows
  []

/-- The file system `helloFs` in an environment where writing `d/plain.txt.encrypted.key`
throws. -/
def lockedKeyFs : FileSystem :=
  { helloFs with
    throws := fun c => decide (c = FsCall.writeFileSync "d/plain.txt.encrypted.key".toList) }

/-- The file system `noKeyFs` in an environment where writing `d/h.txt.verified` throws. -/
def lockedMarkerFs : FileSystem :=
  { noKeyFs with throws := fun c => decide (c = FsCall.writeFileSync "d/h.txt.verified".toList) }

/-- A directory `d` holding the input `e.encrypted` (bytes 1, 2, 3), an empty
`e.encrypted.key`, and `encryption_key.bin` (byte 9). -/
def emptyKeyFs : FileSystem :=
  FileSystem.ofList
    [ ("d/e.encrypted".toList, [1, 2, 3]),
      ("d/e.encrypted.key".toList, []),
      ("d/encryption_key.bin".toList, [9]) ]
    ["d".toList]

/-- A directory `d` holding the input `g.encrypted` (bytes 1, 2, 3), the stripped input's key
file `g.key` (byte 8) and `encryption_key.bin` (byte 9); there is neither `out.key` nor
`g.encrypted.key`. -/
def lateKeysFs : FileSystem :=
  FileSystem.ofList
    [ ("d/g.encrypted".toList, [1, 2, 3]),
      ("d/g.key".toList, [8]),
      ("d/encryption_key.bin".toList, [9]) ]
    ["d".toList]

/-- Specification of the stripped input, after the spec's words "input with `.encrypted` suffix
stripped": the input without its trailing `.encrypted`, and the input itself when it has no
such suffix. -/
def strippedInput (inputPath : JSString) : JSString :=
  if endsWith inputPath ".encrypted".toList then
    inputPath.take (inputPath.length - ".encrypted".toList.length)
  else inputPath

/-- Specification of key discovery, after the spec's words "first existing file wins": the
first of the candidates, in the order given, that exists and can be read, with its content;
`none` when no candidate does. -/
def firstReadableKey (fs : FileSystem) (candidates : List JSString) :
    Option (Buffer × JSString) :=
  (candidates.find? fun c => fs.existsSync c && (fs.readFileSync c).isSome).map
    fun c => ((fs.readFileSync c).getD [], c)

/-! ## The XOR loop -/

theorem keyAt_lt (key : Buffer) (j : Nat) : keyAt key j < 256 := by
  unfold keyAt
  cases key[j]? with
  | none => decide
  | some k => exact k.isLt

theorem xorByte_val (b : Byte) (k : Nat) (hk : k < 256) : (xorByte b k).val = b.val ^^^ k := by
  have hlt : b.val ^^^ k < 2 ^ 8 := Nat.xor_lt_two_pow b.isLt hk
  simp only [xorByte, Fin.ofNat]
  exact Nat.mod_eq_of_lt hlt

theorem xorByte_xorByte (b : Byte) (k : Nat) (hk : k < 256) : xorByte (xorByte b k) k = b := by
  apply Fin.ext
  rw [xorByte_val _ _ hk, xorByte_val _ _ hk, Nat.xor_cancel_right]

theorem xorLoop_xorLoop (key : Buffer) (data : Buffer) :
    ∀ i, xorLoop key i (xorLoop key i data) = data := by
  induction data with
  | nil => intro i; rfl
  | cons b rest ih =>
    intro i
    simp only [xorLoop]
    rw [xorByte_xorByte _ _ (keyAt_lt _ _), ih]

theorem xorLoop_length (key : Buffer) (data : Buffer) :
    ∀ i, (xorLoop key i data).length = data.length := by
  induction data with
  | nil => intro i; rfl
  | cons b rest ih => intro i; simp only [xorLoop, List.length_cons, ih]

theorem xorLoop_getElem_opt (key : Buffer) (data : Buffer) :
    ∀ i j, (xorLoop key i data)[j]? =
      (data[j]?).map fun b => xorByte b (keyAt key ((i + j) % key.length)) := by
  induction data with
  | nil => intro i j; simp [xorLoop]
  | cons b rest ih =>
    intro i j
    cases j with
    | zero => simp [xorLoop]
    | succ j =>
      simp only [xorLoop, List.getElem?_cons_succ, ih]
      have : i + 1 + j = i + (j + 1) := by omega
      rw [this]

/-- C1: applying the repeating-key XOR loop of `fallbackEncryption` / `fallbackDecryption` twice
with the same key gives back the data, for every byte sequence and every key (the empty key
included, with which the loop copies its input). -/
theorem xorLoop_involution (D K : Buffer) : xorLoop K 0 (xorLoop K 0 D) = D :=
  xorLoop_xorLoop K D 0

/-! ## JavaScript string methods -/

theorem endsWith_iff (s suffix : JSString) : endsWith s suffix = true ↔ suffix <:+ s := by
  simp [endsWith]

theorem endsWith_append (t suffix : JSString) : endsWith (t ++ suffix) suffix = true :=
  (endsWith_iff _ _).2 (List.suffix_append t suffix)

theorem lastIndexFrom_eq (s pat : JSString) (m : Nat) (hm : pat.isPrefixOf (s.drop m) = true) :
    ∀ n, m ≤ n → (∀ i, m < i → i ≤ n → pat.isPrefixOf (s.drop i) = false) →
      lastIndexFrom s pat n = (m : Int) := by
  intro n
  induction n with
  | zero =>
    intro hle _
    have h0 : m = 0 := by omega
    subst h0
    simp only [List.drop_zero] at hm
    simp [lastIndexFrom, hm]
  | succ n ih =>
    intro hle hno
    by_cases hmn : m = n + 1
    · subst hmn
      simp [lastIndexFrom, hm]
    · have hlt : m < n + 1 := by omega
      have hfalse := hno (n + 1) hlt (le_refl _)
      simp only [lastIndexFrom, hfalse]
      exact ih (by omega) (fun i h1 h2 => hno i h1 (by omega))

theorem isPrefixOf_false_of_length_lt (pat s : JSString) (h : s.length < pat.length) :
    pat.isPrefixOf s = false := by
  cases hp : pat.isPrefixOf s with
  | false => rfl
  | true =>
    have hpre : pat <+: s := List.isPrefixOf_iff_prefix.1 hp
    have := hpre.length_le
    omega

/-- When `s` ends with `pat`, `lastIndexOf` is the position where that suffix starts. -/
theorem lastIndexOf_append (t pat : JSString) :
    lastIndexOf (t ++ pat) pat = (t.length : Int) := by
  unfold lastIndexOf
  apply lastIndexFrom_eq
  · simp
  · simp
  · intro i h1 h2
    apply isPrefixOf_false_of_length_lt
    simp only [List.length_drop, List.length_append] at h2 ⊢
    omega

theorem substring_zero (s : JSString) (n : Nat) : substring s 0 (n : Int) = s.take n := by
  simp only [substring, clampIndex, Int.toNat_zero, Int.toNat_ofNat, Nat.zero_min,
    Nat.zero_le, min_eq_left, max_eq_right, List.drop_zero, Nat.sub_zero]
  rw [List.take_eq_take]
  simp

theorem substringFrom_natCast (s : JSString) (n : Nat) : substringFrom s (n : Int) = s.drop n := by
  simp only [substringFrom, substring, clampIndex, Int.toNat_ofNat, Nat.min_self]
  rw [min_eq_left (Nat.min_le_right _ _), max_eq_right (Nat.min_le_right _ _)]
  by_cases h : n ≤ s.length
  · rw [Nat.min_eq_left h]
    apply List.take_of_length_le
    simp
  · have h2 : s.length ≤ n := by omega
    rw [Nat.min_eq_right h2]
    simp [List.drop_of_length_le h2]

theorem lastIndexFrom_range (s pat : JSString) :
    ∀ n, lastIndexFrom s pat n = -1 ∨ ∃ k : Nat, k ≤ n ∧ lastIndexFrom s pat n = (k : Int) := by
  intro n
  induction n with
  | zero =>
    simp only [lastIndexFrom]
    split
    · exact Or.inr ⟨0, le_refl _, rfl⟩
    · exact Or.inl rfl
  | succ n ih =>
    simp only [lastIndexFrom]
    split
    · exact Or.inr ⟨n + 1, le_refl _, rfl⟩
    · rcases ih with h | ⟨k, hk, h⟩
      · exact Or.inl h
      · exact Or.inr ⟨k, by omega, h⟩

/-! ## Output path resolution -/

theorem outputFile_default_encrypt (p : JSString) :
    processFile.outputFile p [] Mode.encrypt = p ++ ".encrypted".toList := by
  simp [processFile.outputFile]

theorem outputFile_default_decrypt_strip (t : JSString) :
    processFile.outputFile (t ++ ".encrypted".toList) [] Mode.decrypt = t := by
  simp only [processFile.outputFile, List.isEmpty_nil, if_true, endsWith_append,
    lastIndexOf_append, substring_zero]
  simp

theorem outputFile_default_decrypt_length (p : JSString)
    (h : endsWith p ".encrypted".toList = false) :
    (processFile.outputFile p [] Mode.decrypt).length = p.length + 10 := by
  simp only [processFile.outputFile, List.isEmpty_nil, if_true, h, lastIndexOf]
  rcases lastIndexFrom_range p ".".toList p.length with hneg | ⟨k, hk, hpos⟩
  · rw [hneg]
    simp
  · have hne : (k : Int) ≠ -1 := by omega
    rw [hpos]
    simp only [substring_zero, substringFrom_natCast]
    simp [hne]
    omega

theorem outputFile_requested (inp r : JSString) (mode : Mode) (hr : r ≠ []) :
    processFile.outputFile inp r mode =
      if mode = Mode.encrypt then
        (if endsWith r ".encrypted".toList then r else r ++ ".encrypted".toList)
      else (if r = inp then inp ++ ".decrypted".toList else r) := by
  have hemp : r.isEmpty = false := by
    cases r with
    | nil => exact absurd rfl hr
    | cons c cs => rfl
  cases mode with
  | encrypt =>
    cases he : endsWith r ".encrypted".toList <;>
      simp only [processFile.outputFile, hemp, he] <;> simp
  | decrypt =>
    by_cases hri : r = inp
    · subst hri
      simp only [processFile.outputFile, hemp]
      simp
    · simp only [processFile.outputFile, hemp]
      simp [hri]

theorem append_ne_self (p s : JSString) (hs : s ≠ []) : p ++ s ≠ p := by
  intro h
  have := congrArg List.length h
  simp only [List.length_append] at this
  have : s.length = 0 := by omega
  exact hs (List.length_eq_zero.1 this)

/-- C4: with no requested output, Encrypt resolves to the input followed by `.encrypted`, and
Decrypt of an input ending in `.encrypted` resolves to the input without that trailing suffix;
`report.pdf` gives `report.pdf.encrypted` and back. -/
theorem default_output_naming :
    (∀ p : JSString, processFile.outputFile p [] Mode.encrypt = p ++ ".encrypted".toList) ∧
    (∀ t : JSString, processFile.outputFile (t ++ ".encrypted".toList) [] Mode.decrypt = t) ∧
    (∀ p : JSString, endsWith p ".encrypted".toList = true →
      processFile.outputFile p [] Mode.decrypt = p.take (p.length - 10)) ∧
    processFile.outputFile "report.pdf".toList [] Mode.encrypt = "report.pdf.encrypted".toList ∧
    processFile.outputFile "report.pdf.encrypted".toList [] Mode.decrypt = "report.pdf".toList := by
  refine ⟨outputFile_default_encrypt, outputFile_default_decrypt_strip, ?_, by decide, by decide⟩
  intro p hp
  obtain ⟨t, rfl⟩ := (endsWith_iff _ _).1 hp
  rw [outputFile_default_decrypt_strip]
  simp

/-- The strip rule at `a.encrypted`, which resolves to `a`. -/
theorem default_output_naming_witness :
    endsWith "a.encrypted".toList ".encrypted".toList = true ∧
    processFile.outputFile "a.encrypted".toList [] Mode.decrypt = "a".toList :=
  ⟨by decide, (default_output_naming.2.2.1 "a.encrypted".toList (by decide)).trans (by decide)⟩

/-- C5: evaluation of the Decrypt default naming, in `processFile` and in `updateOutputPath`, on
`my.dir/notes`, whose file name `notes` has no extension: `.decrypted` is inserted before the
dot of the directory name instead of being appended to the path. -/
theorem decrypt_naming_dot_in_directory :
    processFile.outputFile "my.dir/notes".toList [] Mode.decrypt = "my.decrypted.dir/notes".toList ∧
    updateOutputPath "my.dir/notes".toList false = some "my.decrypted.dir/notes".toList ∧
    processFile.outputFile "my.dir/notes".toList [] Mode.decrypt ≠ "my.dir/notes.decrypted".toList := by
  decide

/-- C6: in Decrypt mode a requested output equal to the input never resolves to the input
(the empty path included), and for a non-empty path it resolves to the input followed by
`.decrypted`. -/
theorem no_self_overwrite_decrypt (p : JSString) :
    processFile.outputFile p p Mode.decrypt ≠ p ∧
    (p ≠ [] → processFile.outputFile p p Mode.decrypt = p ++ ".decrypted".toList) := by
  have hne : p ≠ [] → processFile.outputFile p p Mode.decrypt = p ++ ".decrypted".toList := by
    intro hp
    rw [outputFile_requested p p Mode.decrypt hp]
    simp
  refine ⟨?_, hne⟩
  by_cases hp : p = []
  · subst hp
    decide
  · rw [hne hp]
    exact append_ne_self _ _ (by decide)

/-- The overwrite guard at `notes`, which resolves to `notes.decrypted`. -/
theorem no_self_overwrite_decrypt_witness :
    "notes".toList ≠ [] ∧
    processFile.outputFile "notes".toList "notes".toList Mode.decrypt = "notes.decrypted".toList :=
  ⟨by decide, ((no_self_overwrite_decrypt "notes".toList).2 (by decide)).trans (by decide)⟩

theorem outputFile_default_decrypt_ne (p : JSString) :
    processFile.outputFile p [] Mode.decrypt ≠ p := by
  intro heq
  have hlen := congrArg List.length heq
  cases he : endsWith p ".encrypted".toList with
  | false =>
    rw [outputFile_default_decrypt_length p he] at hlen
    omega
  | true =>
    obtain ⟨t, rfl⟩ := (endsWith_iff _ _).1 he
    rw [outputFile_default_decrypt_strip] at hlen
    simp at hlen

/-- C7, counterexample: in Encrypt mode with input `x.encrypted` and requested output
`x.encrypted`, the resolved output path is the input path. -/
theorem outputFile_eq_input_encrypt :
    processFile.outputFile "x.encrypted".toList "x.encrypted".toList Mode.encrypt
      = "x.encrypted".toList := by
  decide

/-- C7, amended: the resolved output differs from the input in Decrypt mode and whenever no
output is requested; in Encrypt mode with a requested output `r` it is the input exactly when
`r` ends with `.encrypted` and is the input, or `r` does not end with `.encrypted` and `r`
followed by `.encrypted` is the input. -/
theorem outputFile_eq_input_iff (inp r : JSString) (mode : Mode) :
    processFile.outputFile inp r mode = inp ↔
      mode = Mode.encrypt ∧ r ≠ [] ∧
        ((endsWith r ".encrypted".toList = true ∧ r = inp) ∨
         (endsWith r ".encrypted".toList = false ∧ r ++ ".encrypted".toList = inp)) := by
  by_cases hr : r = []
  · subst hr
    constructor
    · intro h
      cases mode with
      | encrypt =>
        rw [outputFile_default_encrypt] at h
        exact absurd h (append_ne_self _ _ (by decide))
      | decrypt => exact absurd h (outputFile_default_decrypt_ne inp)
    · rintro ⟨_, h, _⟩
      exact absurd rfl h
  · rw [outputFile_requested inp r mode hr]
    cases mode with
    | encrypt =>
      cases he : endsWith r ".encrypted".toList with
      | false => simp [hr]
      | true => simp [hr]
    | decrypt =>
      by_cases hri : r = inp
      · subst hri
        simp only [if_true, if_false]
        constructor
        · intro h
          exact absurd h (append_ne_self _ _ (by decide))
        · rintro ⟨h, _⟩
          exact absurd h (by decide)
      · simp [hri]

/-- C8: in Encrypt mode a non-empty requested output `r` resolves to `r` when it ends with
`.encrypted` and to `r` followed by `.encrypted` otherwise; whatever is requested, the resolved
Encrypt output ends with `.encrypted`, and requesting a resolved path resolves to itself. -/
theorem requested_output_encrypt (inp r : JSString) :
    (r ≠ [] → processFile.outputFile inp r Mode.encrypt =
      if endsWith r ".encrypted".toList then r else r ++ ".encrypted".toList) ∧
    endsWith (processFile.outputFile inp r Mode.encrypt) ".encrypted".toList = true ∧
    processFile.outputFile inp (processFile.outputFile inp r Mode.encrypt) Mode.encrypt
      = processFile.outputFile inp r Mode.encrypt := by
  have h1 : r ≠ [] → processFile.outputFile inp r Mode.encrypt =
      if endsWith r ".encrypted".toList then r else r ++ ".encrypted".toList := by
    intro hr
    rw [outputFile_requested inp r Mode.encrypt hr]
    simp
  have h2 : endsWith (processFile.outputFile inp r Mode.encrypt) ".encrypted".toList = true := by
    by_cases hr : r = []
    · subst hr
      rw [outputFile_default_encrypt]
      exact endsWith_append _ _
    · rw [h1 hr]
      cases he : endsWith r ".encrypted".toList with
      | false => exact endsWith_append r ".encrypted".toList
      | true => exact he
  refine ⟨h1, h2, ?_⟩
  have hne : processFile.outputFile inp r Mode.encrypt ≠ [] := by
    intro h
    rw [h] at h2
    exact absurd h2 (by decide)
  rw [outputFile_requested inp _ Mode.encrypt hne, if_pos rfl, if_pos h2]

/-- The requested output `out` in Encrypt mode, which resolves to `out.encrypted`. -/
theorem requested_output_encrypt_witness :
    "out".toList ≠ [] ∧
    processFile.outputFile "in.txt".toList "out".toList Mode.encrypt = "out.encrypted".toList :=
  ⟨by decide,
    ((requested_output_encrypt "in.txt".toList "out".toList).1 (by decide)).trans (by decide)⟩

/-! ## File system -/

theorem store_files_self (fs : FileSystem) (p : JSString) (d : Buffer) :
    (fs.store p d).files p = some d := by
  simp [FileSystem.store]

theorem store_files_other (fs : FileSystem) (p q : JSString) (d : Buffer) (h : q ≠ p) :
    (fs.store p d).files q = fs.files q := by
  simp [FileSystem.store, h]

theorem store_throws (fs : FileSystem) (p : JSString) (d : Buffer) :
    (fs.store p d).throws = fs.throws := rfl

theorem readFileSync_eq_some (fs : FileSystem) (p : JSString) (d : Buffer) :
    fs.readFileSync p = some d ↔ fs.throws (FsCall.readFileSync p) = false ∧ fs.files p = some d := by
  unfold FileSystem.readFileSync
  cases fs.throws (FsCall.readFileSync p) <;> simp

theorem existsSync_of_files (fs : FileSystem) (p : JSString) (d : Buffer)
    (h : fs.files p = some d) : fs.existsSync p = true := by
  simp [FileSystem.existsSync, h]

theorem writeFileSync_ok (fs : FileSystem) (p : JSString) (d : Buffer)
    (h : fs.throws (FsCall.writeFileSync p) = false) :
    fs.writeFileSync p d = some (fs.store p d) := by
  simp [FileSystem.writeFileSync, h]

theorem writeFileSync_some (fs fs1 : FileSystem) (p : JSString) (d : Buffer)
    (h : fs.writeFileSync p d = some fs1) :
    fs.throws (FsCall.writeFileSync p) = false ∧ fs1 = fs.store p d := by
  unfold FileSystem.writeFileSync at h
  cases ht : fs.throws (FsCall.writeFileSync p) with
  | true => simp [ht] at h
  | false =>
    simp only [ht, Bool.false_eq_true, if_false, Option.some.injEq] at h
    exact ⟨rfl, h.symm⟩

/-- The state after `if (!fs.existsSync(d)) fs.mkdirSync(d, { recursive: true })`. -/
theorem ensureDir_files (fs fs1 : FileSystem) (d : JSString)
    (h : (if !fs.existsSync d then fs.mkdirSync d else some fs) = some fs1) :
    fs1.files = fs.files ∧ fs1.throws = fs.throws := by
  cases he : fs.existsSync d with
  | true =>
    simp only [he, Bool.not_true, Bool.false_eq_true, if_false, Option.some.injEq] at h
    subst h
    exact ⟨rfl, rfl⟩
  | false =>
    simp only [he, Bool.not_false, if_true, FileSystem.mkdirSync] at h
    cases ht : fs.throws (FsCall.mkdirSync d) with
    | true => simp [ht] at h
    | false =>
      simp only [ht, Bool.false_eq_true, if_false, Option.some.injEq] at h
      subst h
      exact ⟨rfl, rfl⟩

theorem ensureDir_isSome (fs : FileSystem) (d : JSString)
    (h : fs.existsSync d = true ∨ fs.throws (FsCall.mkdirSync d) = false) :
    ∃ fs1, (if !fs.existsSync d then fs.mkdirSync d else some fs) = some fs1 := by
  cases he : fs.existsSync d with
  | true => exact ⟨fs, by simp⟩
  | false =>
    rcases h with h | h
    · rw [he] at h
      exact absurd h (by decide)
    · refine ⟨{ fs with dirs := fun q => if q = d then true else fs.dirs q }, ?_⟩
      simp only [Bool.not_false, if_true, FileSystem.mkdirSync, h, Bool.false_eq_true, if_false]

theorem append_key_ne (p : JSString) : p ≠ p ++ ".key".toList := by
  intro h
  exact append_ne_self p _ (by decide) h.symm

/-! ## Fallback encryption -/

theorem fallbackEncryption_ok (fs : FileSystem) (inp out : JSString) (D : Buffer)
    (hread : fs.readFileSync inp = some D)
    (hout : fs.throws (FsCall.writeFileSync out) = false)
    (hkey : fs.throws (FsCall.writeFileSync (out ++ ".key".toList)) = false) :
    fallbackEncryption fs inp out =
      (true, (fs.store out (xorLoop defaultKey 0 D)).store (out ++ ".key".toList) defaultKey) := by
  unfold fallbackEncryption
  simp only [hread]
  rw [writeFileSync_ok _ _ _ hout]
  simp only []
  rw [writeFileSync_ok _ _ _ (by rw [store_throws]; exact hkey)]
  rfl

theorem fallbackEncryption_true (fs fs1 : FileSystem) (inp out : JSString)
    (h : fallbackEncryption fs inp out = (true, fs1)) :
    ∃ D, fs.readFileSync inp = some D ∧
      fs1 = (fs.store out (xorLoop defaultKey 0 D)).store (out ++ ".key".toList) defaultKey := by
  unfold fallbackEncryption at h
  cases hr : fs.readFileSync inp with
  | none =>
    rw [hr] at h
    exact absurd (congrArg Prod.fst h) Bool.false_ne_true
  | some D =>
    rw [hr] at h
    simp only [] at h
    cases hw : fs.writeFileSync out
        (xorLoop (Buffer.from "FALLBACK_ENCRYPTION_KEY_DEMO_ONLY".toList) 0 D) with
    | none =>
      rw [hw] at h
      exact absurd (congrArg Prod.fst h) Bool.false_ne_true
    | some fs2 =>
      rw [hw] at h
      simp only [] at h
      cases hk : fs2.writeFileSync (out ++ ".key".toList)
          (Buffer.from "FALLBACK_ENCRYPTION_KEY_DEMO_ONLY".toList) with
      | none =>
        rw [hk] at h
        exact absurd (congrArg Prod.fst h) Bool.false_ne_true
      | some fs3 =>
        rw [hk] at h
        have h3 : fs3 = fs1 := congrArg Prod.snd h
        obtain ⟨_, e2⟩ := writeFileSync_some _ _ _ _ hw
        obtain ⟨_, e3⟩ := writeFileSync_some _ _ _ _ hk
        refine ⟨D, rfl, ?_⟩
        rw [← h3, e3, e2]
        rfl

theorem defaultKey_bytes :
    defaultKey.map Fin.val =
      [70, 65, 76, 76, 66, 65, 67, 75, 95, 69, 78, 67, 82, 89, 80, 84, 73, 79, 78, 95, 75, 69, 89,
        95, 68, 69, 77, 79, 95, 79, 78, 76, 89] := by
  decide

theorem xorLoop_byte (key D : Buffer) (i : Nat) (b k : Byte)
    (hb : D[i]? = some b) (hk : key[i % key.length]? = some k) :
    ((xorLoop key 0 D)[i]?).map Fin.val = some (b.val ^^^ k.val) := by
  rw [xorLoop_getElem_opt, hb]
  simp only [Nat.zero_add, Option.map_some', Option.some.injEq]
  have hkey : keyAt key (i % key.length) = k.val := by simp [keyAt, hk]
  rw [hkey]
  exact xorByte_val b k.val k.isLt

/-- C3: when the input can be read and holds `D`, and the writes of the output and of its
`.key` file do not throw, `fallbackEncryption` returns `true`; the output then holds `|D|`
bytes, the `i`-th being `D[i] XOR key[i mod 33]`, and `outputPath + ".key"` holds the key,
which is the 33 ASCII bytes of `FALLBACK_ENCRYPTION_KEY_DEMO_ONLY` whatever the input. -/
theorem fallbackEncryption_spec (fs : FileSystem) (inp out : JSString) (D : Buffer)
    (hread : fs.readFileSync inp = some D)
    (hout : fs.throws (FsCall.writeFileSync out) = false)
    (hkey : fs.throws (FsCall.writeFileSync (out ++ ".key".toList)) = false) :
    ∃ fs1 E, fallbackEncryption fs inp out = (true, fs1) ∧
      fs1.files out = some E ∧ E.length = D.length ∧
      (∀ i b k, D[i]? = some b → defaultKey[i % 33]? = some k →
        (E[i]?).map Fin.val = some (b.val ^^^ k.val)) ∧
      fs1.files (out ++ ".key".toList) = some defaultKey ∧
      defaultKey = Buffer.from "FALLBACK_ENCRYPTION_KEY_DEMO_ONLY".toList ∧
      defaultKey.length = 33 ∧
      defaultKey.map Fin.val =
        [70, 65, 76, 76, 66, 65, 67, 75, 95, 69, 78, 67, 82, 89, 80, 84, 73, 79, 78, 95, 75, 69,
          89, 95, 68, 69, 77, 79, 95, 79, 78, 76, 89] := by
  have hlen : defaultKey.length = 33 := by decide
  refine ⟨_, xorLoop defaultKey 0 D, fallbackEncryption_ok fs inp out D hread hout hkey, ?_,
    xorLoop_length _ _ _, ?_, store_files_self _ _ _, rfl, hlen, defaultKey_bytes⟩
  · rw [store_files_other _ _ _ _ (append_key_ne out), store_files_self]
  · intro i b k hb hk
    exact xorLoop_byte defaultKey D i b k hb (by rw [hlen]; exact hk)

/-- Encryption of `d/plain.txt`, holding `hello world`, to `d/out.encrypted` on `helloFs`. -/
theorem fallbackEncryption_spec_witness :
    ∃ fs1 E, fallbackEncryption helloFs "d/plain.txt".toList "d/out.encrypted".toList = (true, fs1) ∧
      fs1.files "d/out.encrypted".toList = some E ∧
      E.length = (Buffer.from "hello world".toList).length ∧
      fs1.files ("d/out.encrypted".toList ++ ".key".toList) = some defaultKey := by
  obtain ⟨fs1, E, h1, h2, h3, _, h5, _⟩ :=
    fallbackEncryption_spec helloFs "d/plain.txt".toList "d/out.encrypted".toList
      (Buffer.from "hello world".toList) (by decide) (by decide) (by decide)
  exact ⟨fs1, E, h1, h2, h3, h5⟩

/-! ## Fallback decryption -/

theorem existsSync_of_read (fs : FileSystem) (p : JSString) (d : Buffer)
    (h : fs.readFileSync p = some d) : fs.existsSync p = true :=
  existsSync_of_files fs p d ((readFileSync_eq_some fs p d).1 h).2

theorem readKey_head (fs : FileSystem) (keyFile : JSString) (rest : List JSString) (K : Buffer)
    (h : fs.readFileSync keyFile = some K) :
    fallbackDecryption.readKey fs (keyFile :: rest) = some (K, keyFile) := by
  simp only [fallbackDecryption.readKey, existsSync_of_read fs keyFile K h, if_true, h]

theorem possibleKeyFiles_eq (host : Host) (fs : FileSystem) (inp out : JSString) :
    fallbackDecryption.possibleKeyFiles host fs inp out =
      (if fs.existsSync (out ++ ".key".toList) then [out ++ ".key".toList] else []) ++
        [ inp ++ ".key".toList,
          replace inp ".encrypted".toList [] ++ ".key".toList,
          host.join (host.dirname inp) "encryption_key.bin".toList ] := by
  unfold fallbackDecryption.possibleKeyFiles
  cases fs.existsSync (out ++ ".key".toList) <;> rfl

theorem key_of_output_key (host : Host) (fs : FileSystem) (inp out : JSString) (K : Buffer)
    (hk : fs.readFileSync (out ++ ".key".toList) = some K) :
    fallbackDecryption.key host fs inp out = (K, out ++ ".key".toList) := by
  unfold fallbackDecryption.key
  rw [possibleKeyFiles_eq, existsSync_of_read fs _ K hk]
  simp only [if_true, List.singleton_append]
  rw [readKey_head fs _ _ K hk]

theorem key_of_input_key (host : Host) (fs : FileSystem) (inp out : JSString) (K : Buffer)
    (hno : fs.existsSync (out ++ ".key".toList) = false)
    (hk : fs.readFileSync (inp ++ ".key".toList) = some K) :
    fallbackDecryption.key host fs inp out = (K, inp ++ ".key".toList) := by
  unfold fallbackDecryption.key
  rw [possibleKeyFiles_eq, hno]
  simp only [Bool.false_eq_true, if_false, List.nil_append]
  rw [readKey_head fs _ _ K hk]

theorem append_verified_ne (p : JSString) : p ≠ p ++ ".verified".toList := by
  intro h
  exact append_ne_self p _ (by decide) h.symm

/-- When the input can be read, the output directory exists or can be created, and the writes of
the output and of its `.verified` marker do not throw, `fallbackDecryption` returns `true` and
the output holds the input XORed with the discovered key. -/
theorem fallbackDecryption_ok (host : Host) (fs : FileSystem) (inp out : JSString) (D : Buffer)
    (hread : fs.readFileSync inp = some D)
    (hdir : fs.existsSync (host.dirname out) = true ∨
      fs.throws (FsCall.mkdirSync (host.dirname out)) = false)
    (hw : fs.throws (FsCall.writeFileSync out) = false)
    (hv : fs.throws (FsCall.writeFileSync (out ++ ".verified".toList)) = false) :
    ∃ fs1, fallbackDecryption host fs inp out = (true, fs1) ∧
      fs1.files out = some (xorLoop (fallbackDecryption.key host fs inp out).1 0 D) := by
  obtain ⟨fsd, hd⟩ := ensureDir_isSome fs (host.dirname out) hdir
  obtain ⟨_, hthrows⟩ := ensureDir_files fs fsd _ hd
  have hw1 : fsd.throws (FsCall.writeFileSync out) = false := by rw [hthrows]; exact hw
  have hv1 : ∀ d, (fsd.store out d).throws (FsCall.writeFileSync (out ++ ".verified".toList))
      = false := by
    intro d
    rw [store_throws, hthrows]
    exact hv
  unfold fallbackDecryption fallbackDecryption.primary
  simp only [hread, hd]
  rw [writeFileSync_ok _ _ _ hw1]
  simp only []
  rw [writeFileSync_ok _ _ _ (hv1 _)]
  refine ⟨_, rfl, ?_⟩
  rw [store_files_other _ _ _ _ (append_verified_ne out), store_files_self]

/-- C2: if `fallbackEncryption(in, out)` succeeds on a file system where `in` holds `D`, then on
the resulting file system, where `out2 + ".key"` is absent unless it is the written
`out + ".key"`, and where the reads and writes of the decryption do not throw,
`fallbackDecryption(out, out2)` returns `true`, takes its key from `out + ".key"` and leaves
exactly `D` in `out2`. -/
theorem fallback_round_trip (host : Host) (fs fs1 : FileSystem) (inp out out2 : JSString)
    (D : Buffer)
    (hD : fs.files inp = some D)
    (henc : fallbackEncryption fs inp out = (true, fs1))
    (hnokey : out2 ++ ".key".toList ≠ out ++ ".key".toList →
      fs1.existsSync (out2 ++ ".key".toList) = false)
    (hrd : fs1.throws (FsCall.readFileSync out) = false)
    (hrk : fs1.throws (FsCall.readFileSync (out ++ ".key".toList)) = false)
    (hdir : fs1.existsSync (host.dirname out2) = true ∨
      fs1.throws (FsCall.mkdirSync (host.dirname out2)) = false)
    (hw : fs1.throws (FsCall.writeFileSync out2) = false)
    (hv : fs1.throws (FsCall.writeFileSync (out2 ++ ".verified".toList)) = false) :
    ∃ fs2, fallbackDecryption host fs1 out out2 = (true, fs2) ∧
      fallbackDecryption.key host fs1 out out2 = (defaultKey, out ++ ".key".toList) ∧
      fs2.files out2 = some D := by
  obtain ⟨D1, hr, hfs1⟩ := fallbackEncryption_true fs fs1 inp out henc
  have hDD : D1 = D := by
    have := ((readFileSync_eq_some _ _ _).1 hr).2
    rw [hD] at this
    exact (Option.some.inj this).symm
  subst hDD
  have hfout : fs1.files out = some (xorLoop defaultKey 0 D1) := by
    rw [hfs1, store_files_other _ _ _ _ (append_key_ne out), store_files_self]
  have hfkey : fs1.files (out ++ ".key".toList) = some defaultKey := by
    rw [hfs1, store_files_self]
  have hread : fs1.readFileSync out = some (xorLoop defaultKey 0 D1) :=
    (readFileSync_eq_some _ _ _).2 ⟨hrd, hfout⟩
  have hreadk : fs1.readFileSync (out ++ ".key".toList) = some defaultKey :=
    (readFileSync_eq_some _ _ _).2 ⟨hrk, hfkey⟩
  have hkey : fallbackDecryption.key host fs1 out out2 = (defaultKey, out ++ ".key".toList) := by
    cases he : fs1.existsSync (out2 ++ ".key".toList) with
    | false => exact key_of_input_key host fs1 out out2 defaultKey he hreadk
    | true =>
      have heq : out2 ++ ".key".toList = out ++ ".key".toList := by
        by_contra hne
        rw [hnokey hne] at he
        exact Bool.false_ne_true he
      have := key_of_output_key host fs1 out out2 defaultKey (by rw [heq]; exact hreadk)
      rw [heq] at this
      exact this
  obtain ⟨fs2, h2, hf2⟩ := fallbackDecryption_ok host fs1 out out2 _ hread hdir hw hv
  refine ⟨fs2, h2, hkey, ?_⟩
  rw [hf2, hkey]
  exact congrArg some (xorLoop_xorLoop defaultKey D1 0)

/-- Round trip of `hello world` through `d/out.encrypted` on `helloFs`, decrypted to
`d/out.txt`. -/
theorem fallback_round_trip_witness :
    ∃ fs2, fallbackDecryption posixHost
        (fallbackEncryption helloFs "d/plain.txt".toList "d/out.encrypted".toList).2
        "d/out.encrypted".toList "d/out.txt".toList = (true, fs2) ∧
      fs2.files "d/out.txt".toList = some (Buffer.from "hello world".toList) := by
  obtain ⟨fs2, h1, _, h3⟩ :=
    fallback_round_trip posixHost helloFs
      (fallbackEncryption helloFs "d/plain.txt".toList "d/out.encrypted".toList).2
      "d/plain.txt".toList "d/out.encrypted".toList "d/out.txt".toList
      (Buffer.from "hello world".toList)
      (by decide) (Prod.ext (by decide) rfl) (fun _ => by decide) (by decide) (by decide)
      (Or.inl (by decide)) (by decide) (by decide)
  exact ⟨fs2, h1, h3⟩

/-- C9: whenever `outputPath + ".key"` exists and can be read, the key of `fallbackDecryption`
is the content of that file, whatever other candidate key files exist; when the output
directory exists or can be created and the two writes do not throw, the function returns `true`
and the output holds the input XORed with those bytes. -/
theorem output_key_precedence (host : Host) (fs : FileSystem) (inp out : JSString)
    (D K : Buffer)
    (hin : fs.readFileSync inp = some D)
    (hk : fs.readFileSync (out ++ ".key".toList) = some K) :
    fallbackDecryption.key host fs inp out = (K, out ++ ".key".toList) ∧
    ((fs.existsSync (host.dirname out) = true ∨
        fs.throws (FsCall.mkdirSync (host.dirname out)) = false) →
      fs.throws (FsCall.writeFileSync out) = false →
      fs.throws (FsCall.writeFileSync (out ++ ".verified".toList)) = false →
      ∃ fs1, fallbackDecryption host fs inp out = (true, fs1) ∧
        fs1.files out = some (xorLoop K 0 D)) := by
  have hkey := key_of_output_key host fs inp out K hk
  refine ⟨hkey, ?_⟩
  intro hdir hw hv
  obtain ⟨fs1, h1, h2⟩ := fallbackDecryption_ok host fs inp out D hin hdir hw hv
  rw [hkey] at h2
  exact ⟨fs1, h1, h2⟩

/-- Decryption of `d/f.encrypted` to `d/f` on `allKeysFs`: the key is byte 5 of `d/f.key`, although
`d/f.encrypted.key` holds byte 7. -/
theorem output_key_precedence_witness :
    allKeysFs.readFileSync ("d/f.encrypted".toList ++ ".key".toList) = some [7] ∧
    fallbackDecryption.key posixHost allKeysFs "d/f.encrypted".toList "d/f".toList
      = ([5], "d/f".toList ++ ".key".toList) ∧
    ∃ fs1, fallbackDecryption posixHost allKeysFs "d/f.encrypted".toList "d/f".toList = (true, fs1) ∧
      fs1.files "d/f".toList = some (xorLoop [5] 0 [1, 2, 3]) :=
  ⟨by decide,
   (output_key_precedence posixHost allKeysFs "d/f.encrypted".toList "d/f".toList [1, 2, 3] [5]
      (by decide) (by decide)).1,
   (output_key_precedence posixHost allKeysFs "d/f.encrypted".toList "d/f".toList [1, 2, 3] [5]
      (by decide) (by decide)).2 (Or.inl (by decide)) (by decide) (by decide)⟩

/-- C10, counterexample: `d/out.key` does not exist, `d/encryption_key.bin` (byte 9) and
`d/g.encrypted.key` (byte 7) both exist; `fallbackDecryption` takes the key of
`d/g.encrypted.key` and writes the input XORed with 7, not with 9. -/
theorem key_order_counterexample :
    twoKeysFs.existsSync ("d/out".toList ++ ".key".toList) = false ∧
    twoKeysFs.readFileSync
      (posixHost.join (posixHost.dirname "d/g.encrypted".toList) "encryption_key.bin".toList)
        = some [9] ∧
    twoKeysFs.readFileSync ("d/g.encrypted".toList ++ ".key".toList) = some [7] ∧
    fallbackDecryption.key posixHost twoKeysFs "d/g.encrypted".toList "d/out".toList
      = ([7], "d/g.encrypted.key".toList) ∧
    (fallbackDecryption posixHost twoKeysFs "d/g.encrypted".toList "d/out".toList).1 = true ∧
    (fallbackDecryption posixHost twoKeysFs "d/g.encrypted".toList "d/out".toList).2.files
      "d/out".toList = some (xorLoop [7] 0 [1, 2, 3]) ∧
    xorLoop [7] 0 [1, 2, 3] ≠ xorLoop [9] 0 [1, 2, 3] := by
  decide

/-! ## Default key and secondary fallback -/

theorem readKey_none (fs : FileSystem) (l : List JSString)
    (h : ∀ c ∈ l, fs.existsSync c = false) : fallbackDecryption.readKey fs l = none := by
  induction l with
  | nil => rfl
  | cons c rest ih =>
    have hc : fs.existsSync c = false := h c (List.mem_cons_self _ _)
    simp only [fallbackDecryption.readKey, hc, Bool.false_eq_true, if_false]
    exact ih (fun x hx => h x (List.mem_cons_of_mem _ hx))

theorem key_default (host : Host) (fs : FileSystem) (inp out : JSString)
    (h : ∀ c ∈ fallbackDecryption.possibleKeyFiles host fs inp out, fs.existsSync c = false) :
    fallbackDecryption.key host fs inp out = (defaultKey, "default key".toList) := by
  unfold fallbackDecryption.key
  rw [readKey_none fs _ h]
  rfl

theorem ensureDir_exists (fs fs1 : FileSystem) (d : JSString)
    (h : (if !fs.existsSync d then fs.mkdirSync d else some fs) = some fs1) :
    fs1.existsSync d = true := by
  cases he : fs.existsSync d with
  | true =>
    simp only [he, Bool.not_true, Bool.false_eq_true, if_false, Option.some.injEq] at h
    subst h
    exact he
  | false =>
    simp only [he, Bool.not_false, if_true, FileSystem.mkdirSync] at h
    cases ht : fs.throws (FsCall.mkdirSync d) with
    | true => simp [ht] at h
    | false =>
      simp only [ht, Bool.false_eq_true, if_false, Option.some.injEq] at h
      subst h
      simp [FileSystem.existsSync]

/-- The secondary fallback started in a state where the output directory exists and the input
holds `D`. -/
theorem secondary_of_dir (host : Host) (fs : FileSystem) (inp out : JSString) (D : Buffer)
    (hdir : fs.existsSync (host.dirname out) = true) (hin : fs.files inp = some D) :
    fallbackDecryption.secondary host fs inp out =
      if fs.throws (FsCall.copyFileSync inp out) then (false, fs)
      else if fs.throws (FsCall.appendFileSync out) then (false, fs.store out D)
      else (true, (fs.store out D).store out
        (D ++ Buffer.from "\n\nTHIS IS A PLACEHOLDER FILE - ACTUAL DECRYPTION FAILED\n".toList)) := by
  unfold fallbackDecryption.secondary
  simp only [hdir, Bool.not_true, Bool.false_eq_true, if_false, FileSystem.copyFileSync, hin,
    FileSystem.appendFileSync]
  cases hc : fs.throws (FsCall.copyFileSync inp out) with
  | true => simp
  | false =>
    simp only [Bool.false_eq_true, if_false, store_throws]
    by_cases ha : fs.throws (FsCall.appendFileSync out) = true
    · simp only [ha, if_true]
    · simp only [ha, if_false, store_files_self, Option.getD_some, Bool.false_eq_true]

/-- The state in which the secondary fallback starts when the write of the output throws. -/
theorem fallbackDecryption_write_throws (host : Host) (fs : FileSystem) (inp out : JSString)
    (D : Buffer)
    (hread : fs.readFileSync inp = some D)
    (hdir : fs.existsSync (host.dirname out) = true ∨
      fs.throws (FsCall.mkdirSync (host.dirname out)) = false)
    (hw : fs.throws (FsCall.writeFileSync out) = true) :
    ∃ fsd, fsd.files = fs.files ∧ fsd.throws = fs.throws ∧
      fsd.existsSync (host.dirname out) = true ∧
      fallbackDecryption host fs inp out = fallbackDecryption.secondary host fsd inp out := by
  obtain ⟨fsd, hd⟩ := ensureDir_isSome fs (host.dirname out) hdir
  obtain ⟨hfiles, hthrows⟩ := ensureDir_files fs fsd _ hd
  refine ⟨fsd, hfiles, hthrows, ensureDir_exists fs fsd _ hd, ?_⟩
  have hw1 : ∀ d, fsd.writeFileSync out d = none := by
    intro d
    simp [FileSystem.writeFileSync, hthrows, hw]
  unfold fallbackDecryption fallbackDecryption.primary
  simp only [hread, hd, hw1]

/-- C11: when the input can be read, none of the candidate key files exists, the output directory
exists or can be created and the two writes do not throw, `fallbackDecryption` does not fail: its
key is the hardcoded 33-byte key with source `default key`, it returns `true` and the output
holds the input XORed with that key.  It is the key `fallbackEncryption` encrypts with, so an
input that is the fallback encryption of `P` is decrypted to exactly `P`. -/
theorem default_key_last_resort (host : Host) (fs : FileSystem) (inp out : JSString)
    (D : Buffer)
    (hread : fs.readFileSync inp = some D)
    (hnone : ∀ c ∈ [ out ++ ".key".toList, inp ++ ".key".toList,
        replace inp ".encrypted".toList [] ++ ".key".toList,
        host.join (host.dirname inp) "encryption_key.bin".toList ], fs.existsSync c = false)
    (hdir : fs.existsSync (host.dirname out) = true ∨
      fs.throws (FsCall.mkdirSync (host.dirname out)) = false)
    (hw : fs.throws (FsCall.writeFileSync out) = false)
    (hv : fs.throws (FsCall.writeFileSync (out ++ ".verified".toList)) = false) :
    fallbackDecryption.key host fs inp out = (defaultKey, "default key".toList) ∧
    defaultKey = Buffer.from "FALLBACK_ENCRYPTION_KEY_DEMO_ONLY".toList ∧
    defaultKey.length = 33 ∧
    (∃ fs1, fallbackDecryption host fs inp out = (true, fs1) ∧
      fs1.files out = some (xorLoop defaultKey 0 D)) ∧
    (∀ fs0 fs0' src dst, fallbackEncryption fs0 src dst = (true, fs0') →
      ∃ P, fs0.readFileSync src = some P ∧ fs0'.files dst = some (xorLoop defaultKey 0 P)) ∧
    (∀ P, D = xorLoop defaultKey 0 P →
      ∃ fs1, fallbackDecryption host fs inp out = (true, fs1) ∧ fs1.files out = some P) := by
  have hkey : fallbackDecryption.key host fs inp out = (defaultKey, "default key".toList) := by
    apply key_default
    intro c hc
    rw [possibleKeyFiles_eq, hnone _ (List.mem_cons_self _ _)] at hc
    exact hnone c (List.mem_cons_of_mem _ hc)
  obtain ⟨fs1, h1, h2⟩ := fallbackDecryption_ok host fs inp out D hread hdir hw hv
  rw [hkey] at h2
  refine ⟨hkey, rfl, by decide, ⟨fs1, h1, h2⟩, ?_, ?_⟩
  · intro fs0 fs0' src dst henc
    obtain ⟨P, hP, hfs⟩ := fallbackEncryption_true fs0 fs0' src dst henc
    refine ⟨P, hP, ?_⟩
    rw [hfs, store_files_other _ _ _ _ (append_key_ne dst), store_files_self]
  · intro P hP
    refine ⟨fs1, h1, ?_⟩
    rw [h2, hP]
    exact congrArg some (xorLoop_xorLoop defaultKey P 0)

/-- Decryption of `d/h.encrypted` to `d/h.txt` on `noKeyFs`, which holds no key file: the default
key is used and `hello world` is recovered. -/
theorem default_key_last_resort_witness :
    fallbackDecryption.key posixHost noKeyFs "d/h.encrypted".toList "d/h.txt".toList
      = (defaultKey, "default key".toList) ∧
    ∃ fs1, fallbackDecryption posixHost noKeyFs "d/h.encrypted".toList "d/h.txt".toList
        = (true, fs1) ∧
      fs1.files "d/h.txt".toList = some (Buffer.from "hello world".toList) := by
  have h := default_key_last_resort posixHost noKeyFs "d/h.encrypted".toList "d/h.txt".toList
    (xorLoop defaultKey 0 (Buffer.from "hello world".toList))
    (by decide) (by decide) (Or.inl (by decide)) (by decide) (by decide)
  exact ⟨h.1, h.2.2.2.2.2 (Buffer.from "hello world".toList) rfl⟩

/-- C12: when the input holds `D` and can be read, the output directory exists or can be created,
and the write of the output throws, `fallbackDecryption` runs the secondary fallback: if the
copy and the append do not throw it returns `true` and the output file exists and holds `D`
followed by the placeholder notice, so `D` is a prefix of it; it returns `false` only when the
copy or the append throws. -/
theorem secondary_fallback (host : Host) (fs : FileSystem) (inp out : JSString) (D : Buffer)
    (hread : fs.readFileSync inp = some D)
    (hdir : fs.existsSync (host.dirname out) = true ∨
      fs.throws (FsCall.mkdirSync (host.dirname out)) = false)
    (hw : fs.throws (FsCall.writeFileSync out) = true) :
    (fs.throws (FsCall.copyFileSync inp out) = false →
      fs.throws (FsCall.appendFileSync out) = false →
      ∃ fs1 content, fallbackDecryption host fs inp out = (true, fs1) ∧
        fs1.existsSync out = true ∧ fs1.files out = some content ∧
        content = D ++ Buffer.from
          "\n\nTHIS IS A PLACEHOLDER FILE - ACTUAL DECRYPTION FAILED\n".toList ∧
        D <+: content) ∧
    ((fallbackDecryption host fs inp out).1 = false →
      fs.throws (FsCall.copyFileSync inp out) = true ∨
      fs.throws (FsCall.appendFileSync out) = true) := by
  obtain ⟨fsd, hfiles, hthrows, hex, heq⟩ :=
    fallbackDecryption_write_throws host fs inp out D hread hdir hw
  have hin : fsd.files inp = some D := by
    rw [hfiles]
    exact ((readFileSync_eq_some _ _ _).1 hread).2
  rw [heq, secondary_of_dir host fsd inp out D hex hin, hthrows]
  constructor
  · intro hc ha
    rw [hc, ha]
    simp only [Bool.false_eq_true, if_false]
    exact ⟨_, _, rfl, existsSync_of_files _ _ _ (store_files_self _ _ _), store_files_self _ _ _,
      rfl, List.prefix_append _ _⟩
  · intro hfalse
    cases hc : fs.throws (FsCall.copyFileSync inp out) with
    | true => exact Or.inl rfl
    | false =>
      cases ha : fs.throws (FsCall.appendFileSync out) with
      | true => exact Or.inr rfl
      | false =>
        rw [hc, ha] at hfalse
        simp only [Bool.false_eq_true, if_false] at hfalse
        exact absurd hfalse (by decide)

/-- Decryption of `d/h.encrypted` to `d/h.txt` on `lockedOutputFs`, where the write of the output
throws: the output is the raw input followed by the notice. -/
theorem secondary_fallback_witness :
    ∃ fs1, fallbackDecryption posixHost lockedOutputFs "d/h.encrypted".toList "d/h.txt".toList
        = (true, fs1) ∧
      fs1.files "d/h.txt".toList = some
        (xorLoop defaultKey 0 (Buffer.from "hello world".toList) ++
          Buffer.from "\n\nTHIS IS A PLACEHOLDER FILE - ACTUAL DECRYPTION FAILED\n".toList) := by
  obtain ⟨fs1, content, h1, _, h3, h4, _⟩ :=
    (secondary_fallback posixHost lockedOutputFs "d/h.encrypted".toList "d/h.txt".toList
      (xorLoop defaultKey 0 (Buffer.from "hello world".toList))
      (by decide) (Or.inl (by decide)) (by decide)).1 (by decide) (by decide)
  exact ⟨fs1, h1, by rw [h3, h4]⟩

/-! ## Worker registry -/

theorem setStatus_identity (r : List WorkerInfo) (workerId : Nat) (s : WorkerStatus) :
    (setStatus r workerId s).map WorkerInfo.identity = r.map WorkerInfo.identity := by
  induction r with
  | nil => rfl
  | cons w ws ih =>
    unfold setStatus
    by_cases h : w.id = workerId
    · subst h
      simp only [if_true, List.map_cons]
      rfl
    · simp only [h, if_false, List.map_cons, ih]

theorem stopWorker_identity (r : List WorkerInfo) (workerId : Nat) (killThrows : Bool) :
    (stopWorker r workerId killThrows).2.map WorkerInfo.identity = r.map WorkerInfo.identity := by
  unfold stopWorker
  cases r.find? (fun w => w.id == workerId) with
  | none => rfl
  | some w =>
    simp only []
    split
    · split
      · rfl
      · exact setStatus_identity _ _ _
    · rfl

theorem length_eq_of_identity (r r1 : List WorkerInfo)
    (h : r1.map WorkerInfo.identity = r.map WorkerInfo.identity) : r1.length = r.length := by
  have := congrArg List.length h
  simpa using this

/-- The entries that a sequence of calls appends to a registry of length `n`. -/
theorem runRegistry_identity (calls : List RegistryCall) :
    ∀ r : List WorkerInfo, (runRegistry r calls).1.map WorkerInfo.identity =
      r.map WorkerInfo.identity ++
        ((startsOf calls).enumFrom r.length).map (fun x => (x.1, x.2.1, some x.2.2)) := by
  induction calls with
  | nil => intro r; simp [runRegistry, startsOf]
  | cons c rest ih =>
    intro r
    cases c with
    | startWorker address workerProcess =>
      simp only [runRegistry, startsOf, ih, startWorker, List.map_append, List.map_cons,
        List.map_nil, List.length_append, List.length_cons, List.length_nil, List.enumFrom_cons,
        List.append_assoc, List.singleton_append, WorkerInfo.identity, Nat.zero_add]
    | stopWorker workerId killThrows =>
      simp only [runRegistry, startsOf, ih, stopWorker_identity,
        length_eq_of_identity _ _ (stopWorker_identity r workerId killThrows)]
    | workerClose workerId =>
      simp only [runRegistry, startsOf, ih, startWorker.onClose, setStatus_identity,
        length_eq_of_identity _ _ (setStatus_identity r workerId WorkerStatus.stopped)]

theorem runRegistry_length (calls : List RegistryCall) (r : List WorkerInfo) :
    (runRegistry r calls).1.length = r.length + (startsOf calls).length := by
  have := congrArg List.length (runRegistry_identity calls r)
  simpa using this

theorem runRegistry_ids (calls : List RegistryCall) :
    ∀ r : List WorkerInfo,
      (runRegistry r calls).2 = List.range' r.length (startsOf calls).length := by
  induction calls with
  | nil => intro r; rfl
  | cons c rest ih =>
    intro r
    cases c with
    | startWorker address workerProcess =>
      simp only [runRegistry, startsOf, ih, startWorker, List.length_append, List.length_cons,
        List.length_nil, Nat.zero_add, List.range'_succ]
    | stopWorker workerId killThrows =>
      simp only [runRegistry, startsOf, ih,
        length_eq_of_identity _ _ (stopWorker_identity r workerId killThrows)]
    | workerClose workerId =>
      simp only [runRegistry, startsOf, ih, startWorker.onClose,
        length_eq_of_identity _ _ (setStatus_identity r workerId WorkerStatus.stopped)]

theorem enumFrom_identity_ids (l : List (JSString × ChildProcess)) :
    ∀ n, ((l.enumFrom n).map (fun x => (x.1, x.2.1, some x.2.2))).map
      (fun (t : Nat × JSString × Option ChildProcess) => t.1) = List.range' n l.length := by
  induction l with
  | nil => intro n; rfl
  | cons a rest ih =>
    intro n
    simp only [List.enumFrom_cons, List.map_cons, List.length_cons, List.range'_succ, ih]

theorem ids_of_identity (r : List WorkerInfo) :
    r.map (fun w => w.id) =
      (r.map WorkerInfo.identity).map (fun (t : Nat × JSString × Option ChildProcess) => t.1) := by
  rw [List.map_map]
  rfl

/-- C13: on a fresh registry, whatever `stopWorker` calls and worker exits come in between, the
`startWorker` calls return the ids 0, 1, 2, ... in call order.  Three starts return 0, 1, 2, and
a fourth start after `stopWorker(1)` returns 3 while the list still holds worker 1, with status
`stopping`, or `stopped` once its exit was handled. -/
theorem worker_id_monotonicity (calls : List RegistryCall) :
    (runRegistry [] calls).2 = List.range (startsOf calls).length ∧
    (runRegistry [] fourStarts).2 = [0, 1, 2, 3] ∧
    (runRegistry [] fourStarts).1.map (fun w => (w.id, w.status)) =
      [ (0, WorkerStatus.running), (1, WorkerStatus.stopping), (2, WorkerStatus.running),
        (3, WorkerStatus.running) ] ∧
    (runRegistry [] (fourStarts.take 4 ++ RegistryCall.workerClose 1 :: fourStarts.drop 4)).2
      = [0, 1, 2, 3] ∧
    (runRegistry [] (fourStarts.take 4 ++ RegistryCall.workerClose 1 :: fourStarts.drop 4)).1.map
        (fun w => (w.id, w.status)) =
      [ (0, WorkerStatus.running), (1, WorkerStatus.stopped), (2, WorkerStatus.running),
        (3, WorkerStatus.running) ] := by
  refine ⟨?_, by decide, by decide, by decide, by decide⟩
  rw [runRegistry_ids, List.range_eq_range']
  rfl

/-- C14: after any sequence of `startWorker`, `stopWorker` and worker-exit calls on a fresh
registry, the entries are, in order, those created by the `startWorker` calls, the `i`-th with
id `i` and with the address and process it was started with; the ids are pairwise distinct; and
any further calls keep these entries, with the same id, address and process, as a prefix of the
registry: only the status of an entry changes. -/
theorem registry_invariant (calls : List RegistryCall) :
    (runRegistry [] calls).1.map WorkerInfo.identity =
      ((startsOf calls).enumFrom 0).map (fun x => (x.1, x.2.1, some x.2.2)) ∧
    (runRegistry [] calls).1.length = (startsOf calls).length ∧
    (runRegistry [] calls).1.map (fun w => w.id) = List.range (runRegistry [] calls).1.length ∧
    ((runRegistry [] calls).1.map (fun w => w.id)).Nodup ∧
    ∀ more : List RegistryCall,
      (runRegistry [] calls).1.map WorkerInfo.identity <+:
        (runRegistry (runRegistry [] calls).1 more).1.map WorkerInfo.identity := by
  have hid := runRegistry_identity calls []
  simp only [List.map_nil, List.nil_append, List.length_nil] at hid
  have hlen : (runRegistry [] calls).1.length = (startsOf calls).length := by
    simpa using runRegistry_length calls []
  have hids : (runRegistry [] calls).1.map (fun w => w.id)
      = List.range (runRegistry [] calls).1.length := by
    rw [ids_of_identity, hid, enumFrom_identity_ids, hlen, List.range_eq_range']
  refine ⟨hid, hlen, hids, ?_, ?_⟩
  · rw [hids]
    exact List.nodup_range _
  · intro more
    rw [runRegistry_identity more]
    exact List.prefix_append _ _

theorem find_first (pre post : List WorkerInfo) (w : WorkerInfo) (workerId : Nat)
    (hpre : ∀ x ∈ pre, x.id ≠ workerId) (hw : w.id = workerId) :
    (pre ++ w :: post).find? (fun x => x.id == workerId) = some w := by
  induction pre with
  | nil => simp [hw]
  | cons a rest ih =>
    have ha : a.id ≠ workerId := hpre a (List.mem_cons_self _ _)
    have hb : (a.id == workerId) = false := by simpa using ha
    simp only [List.cons_append, List.find?_cons, hb]
    exact ih (fun x hx => hpre x (List.mem_cons_of_mem _ hx))

theorem setStatus_first (pre post : List WorkerInfo) (w : WorkerInfo) (workerId : Nat)
    (s : WorkerStatus) (hpre : ∀ x ∈ pre, x.id ≠ workerId) (hw : w.id = workerId) :
    setStatus (pre ++ w :: post) workerId s = pre ++ { w with status := s } :: post := by
  induction pre with
  | nil => simp [setStatus, hw]
  | cons a rest ih =>
    have ha : a.id ≠ workerId := hpre a (List.mem_cons_self _ _)
    have hrec := ih (fun x hx => hpre x (List.mem_cons_of_mem _ hx))
    show setStatus (a :: (rest ++ w :: post)) workerId s = a :: (rest ++ _ :: post)
    simp only [setStatus, ha, if_false, hrec]

theorem find_none (reg : List WorkerInfo) (workerId : Nat)
    (h : ∀ w ∈ reg, w.id ≠ workerId) : reg.find? (fun x => x.id == workerId) = none := by
  rw [List.find?_eq_none]
  intro x hx
  simpa using h x hx

/-- C15: when the registry holds an entry with the given id (the first such entry `w`, which has a
process handle) and the kill call does not throw, `stopWorker` returns `true` and only changes
the status of `w` to `stopping`, every other entry and the length of the list staying as they
were; when no entry has that id it returns `false` and leaves the registry unchanged. -/
theorem stopWorker_postcondition (reg : List WorkerInfo) (workerId : Nat) :
    (∀ (pre post : List WorkerInfo) (w : WorkerInfo), reg = pre ++ w :: post →
      (∀ x ∈ pre, x.id ≠ workerId) → w.id = workerId → w.process.isSome = true →
      stopWorker reg workerId false =
        (true, pre ++ { w with status := WorkerStatus.stopping } :: post) ∧
      (stopWorker reg workerId false).2.length = reg.length) ∧
    ((∀ w ∈ reg, w.id ≠ workerId) →
      ∀ killThrows, stopWorker reg workerId killThrows = (false, reg)) := by
  constructor
  · intro pre post w hreg hpre hw hproc
    subst hreg
    have hstop : stopWorker (pre ++ w :: post) workerId false =
        (true, pre ++ { w with status := WorkerStatus.stopping } :: post) := by
      unfold stopWorker
      rw [find_first pre post w workerId hpre hw]
      simp only [hproc, if_true, Bool.false_eq_true, if_false]
      rw [setStatus_first pre post w workerId _ hpre hw]
    refine ⟨hstop, ?_⟩
    rw [hstop]
    simp
  · intro hnone killThrows
    unfold stopWorker
    rw [find_none reg workerId hnone]

/-- The call `stopWorker(1)` after three starts, and `stopWorker(7)` on the same registry. -/
theorem stopWorker_postcondition_witness :
    (stopWorker (runRegistry [] (fourStarts.take 3)).1 1 false).1 = true ∧
    (stopWorker (runRegistry [] (fourStarts.take 3)).1 1 false).2.map (fun w => (w.id, w.status))
      = [ (0, WorkerStatus.running), (1, WorkerStatus.stopping), (2, WorkerStatus.running) ] ∧
    stopWorker (runRegistry [] (fourStarts.take 3)).1 7 true
      = (false, (runRegistry [] (fourStarts.take 3)).1) := by
  have h := (stopWorker_postcondition (runRegistry [] (fourStarts.take 3)).1 1).1
    [{ id := 0, process := some { pid := 101 }, address := "127.0.0.1:50051".toList,
       status := WorkerStatus.running }]
    [{ id := 2, process := some { pid := 103 }, address := "127.0.0.1:50053".toList,
       status := WorkerStatus.running }]
    { id := 1, process := some { pid := 102 }, address := "127.0.0.1:50052".toList,
      status := WorkerStatus.running }
    (by decide) (by decide) rfl rfl
  refine ⟨by rw [h.1], by rw [h.1]; decide, ?_⟩
  exact (stopWorker_postcondition (runRegistry [] (fourStarts.take 3)).1 7).2 (by decide) true

/-- C16: evaluation of `stopWorker(0)` on the registry reached by one `startWorker` followed by
the exit of that worker: the entry has status `stopped` and still holds its process, and
`stopWorker` returns `true` and sets the status to `stopping`. -/
theorem stopWorker_after_exit :
    (runRegistry []
        [ RegistryCall.startWorker "127.0.0.1:50051".toList { pid := 101 },
          RegistryCall.workerClose 0 ]).1
      = [{ id := 0, process := some { pid := 101 }, address := "127.0.0.1:50051".toList,
           status := WorkerStatus.stopped }] ∧
    stopWorker
        [{ id := 0, process := some { pid := 101 }, address := "127.0.0.1:50051".toList,
           status := WorkerStatus.stopped }] 0 false
      = (true, [{ id := 0, process := some { pid := 101 }, address := "127.0.0.1:50051".toList,
                  status := WorkerStatus.stopping }]) := by
  decide

/-! ## Job dispatch -/

theorem outputFile_eq_nil (inp req : JSString) (mode : Mode)
    (h : processFile.outputFile inp req mode = []) :
    mode = Mode.decrypt ∧ inp = ".encrypted".toList := by
  by_cases hr : req = []
  · subst hr
    cases mode with
    | encrypt =>
      rw [outputFile_default_encrypt] at h
      have := congrArg List.length h
      simp at this
    | decrypt =>
      refine ⟨rfl, ?_⟩
      cases he : endsWith inp ".encrypted".toList with
      | false =>
        have := outputFile_default_decrypt_length inp he
        rw [h] at this
        simp at this
      | true =>
        obtain ⟨t, rfl⟩ := (endsWith_iff _ _).1 he
        rw [outputFile_default_decrypt_strip] at h
        rw [h]
        rfl
  · exfalso
    rw [outputFile_requested inp req mode hr] at h
    cases mode with
    | encrypt =>
      simp only [if_true] at h
      split at h
      · exact hr h
      · have := congrArg List.length h
        simp at this
    | decrypt =>
      have hne : ¬ (Mode.decrypt = Mode.encrypt) := by decide
      simp only [hne, if_false] at h
      split at h
      · have := congrArg List.length h
        simp at this
      · exact hr h

/-- The path recomputed by the `close` handler is the resolved output path. -/
theorem actualOutputPath_resolved (inp req : JSString) (mode : Mode) :
    processFile.actualOutputPath inp (processFile.outputFile inp req mode) mode
      = processFile.outputFile inp req mode := by
  unfold processFile.actualOutputPath
  cases hemp : (processFile.outputFile inp req mode).isEmpty with
  | false => simp
  | true =>
    have hnil : processFile.outputFile inp req mode = [] := List.isEmpty_iff.1 hemp
    obtain ⟨hmode, hinp⟩ := outputFile_eq_nil inp req mode hnil
    subst hmode
    subst hinp
    rw [hnil]
    decide

/-- C17: when the input path does not exist, `processFile` returns `null` without spawning a
master process, leaves the file system untouched (no directory is created, no fallback runs,
no handler is registered), and sends, when the window exists, exactly `process-error` with the
text `Input file not found: <input>` followed by `process-completed` with code 1. -/
theorem input_not_found (host : Host) (mainWindow : Bool) (fs : FileSystem)
    (inp out : JSString) (workers : List WorkerInfo) (mode : Mode)
    (h : fs.existsSync inp = false) :
    (processFile host mainWindow fs inp out workers mode).spawned = none ∧
    (processFile host mainWindow fs inp out workers mode).fs = fs ∧
    (processFile host mainWindow fs inp out workers mode).events =
      (if mainWindow then
        [ Event.processError ("Input file not found: ".toList ++ inp),
          Event.processCompleted 1 ]
       else []) := by
  unfold processFile
  simp only [h, Bool.not_false, if_true, send]
  exact ⟨trivial, trivial, trivial⟩

/-- The job `d/nope.txt` on `helloFs`, which holds no such file. -/
theorem input_not_found_witness :
    (processFile posixHost true helloFs "d/nope.txt".toList [] [] Mode.encrypt).spawned = none ∧
    (processFile posixHost true helloFs "d/nope.txt".toList [] [] Mode.encrypt).events =
      [ Event.processError "Input file not found: d/nope.txt".toList,
        Event.processCompleted 1 ] := by
  have h := input_not_found posixHost true helloFs "d/nope.txt".toList [] [] Mode.encrypt
    (by decide)
  exact ⟨h.1, h.2.2⟩

theorem processFile_spawned (host : Host) (mainWindow : Bool) (fs : FileSystem)
    (inp out : JSString) (workers : List WorkerInfo) (mode : Mode) :
    (processFile host mainWindow fs inp out workers mode).spawned =
      if fs.existsSync inp then
        some ([mode.keyword, inp, processFile.outputFile inp out mode] ++
          workers.map fun w => w.address)
      else none := by
  unfold processFile
  cases fs.existsSync inp <;> simp

/-- C18: a file request spawns the master exactly when some registry entry is selected and the
input exists, and then with the arguments mode keyword, input path, resolved output path,
followed by the addresses of the selected workers; the selected workers are the registry entries
whose id occurs in the request, in registry order whatever the order or repetition of the
requested ids, and the argument list has 3 plus that many elements. -/
theorem master_argv (host : Host) (mainWindow : Bool) (fs : FileSystem)
    (workerProcesses : List WorkerInfo) (inp out : JSString) (workerIds : List Nat)
    (mode : Mode) :
    (setupIPC.onFile host mainWindow fs workerProcesses inp out workerIds mode).spawned =
      (if (selectWorkers workerProcesses workerIds).length = 0 ∨ fs.existsSync inp = false then
        none
       else some ([mode.keyword, inp, processFile.outputFile inp out mode] ++
          (selectWorkers workerProcesses workerIds).map fun w => w.address)) ∧
    ([mode.keyword, inp, processFile.outputFile inp out mode] ++
        (selectWorkers workerProcesses workerIds).map fun w => w.address).length
      = 3 + (selectWorkers workerProcesses workerIds).length ∧
    selectWorkers workerProcesses workerIds
      = workerProcesses.filter (fun w => decide (w.id ∈ workerIds)) ∧
    (selectWorkers workerProcesses workerIds).Sublist workerProcesses ∧
    Mode.encrypt.keyword = "encrypt".toList ∧ Mode.decrypt.keyword = "decrypt".toList ∧
    (setupIPC.onFile posixHost true helloFs (runRegistry [] fourStarts).1 "d/plain.txt".toList []
        [2, 0, 0, 9] Mode.encrypt).spawned =
      some [ "encrypt".toList, "d/plain.txt".toList, "d/plain.txt.encrypted".toList,
             "127.0.0.1:50051".toList, "127.0.0.1:50053".toList ] := by
  refine ⟨?_, ?_, ?_, List.filter_sublist _, rfl, rfl, by decide⟩
  · unfold setupIPC.onFile
    by_cases hsel : (selectWorkers workerProcesses workerIds).length = 0
    · simp only [hsel, if_true, true_or]
    · simp only [hsel, if_false, false_or, processFile_spawned]
      cases fs.existsSync inp <;> simp
  · simp only [List.length_append, List.length_cons, List.length_nil, List.length_map]
  · unfold selectWorkers
    congr 1
    funext w
    simp

/-- The artifact check of the `close` handler when something exists at the output path. -/
theorem handled_artifact (host : Host) (mainWindow : Bool) (fs : FileSystem)
    (inp out : JSString) (mode : Mode) (code : Option Int)
    (h : fs.existsSync out = true) :
    processFile.onClose.handled host mainWindow fs inp out out mode code =
      { events :=
          if fs.statSync out then
            send mainWindow [Event.processOutput
              ("File processing completed successfully. Output saved to ".toList ++ out)]
          else [],
        fs := fs, fallbacks := [] } := by
  unfold processFile.onClose.handled
  simp only [h, Bool.true_or, if_true]
  cases fs.statSync out <;> rfl

/-- The messages sent before the final one: at most one, and never `process-completed`. -/
theorem handled_events (host : Host) (mainWindow : Bool) (fs : FileSystem)
    (inp out actual : JSString) (mode : Mode) (code : Option Int) :
    (processFile.onClose.handled host mainWindow fs inp out actual mode code).events.length ≤ 1 ∧
    ∀ e ∈ (processFile.onClose.handled host mainWindow fs inp out actual mode code).events,
      ∀ c, e ≠ Event.processCompleted c := by
  unfold processFile.onClose.handled
  simp only []
  cases mainWindow <;> split_ifs <;> simp [send]

theorem onClose_eq (host : Host) (mainWindow : Bool) (fs : FileSystem)
    (inp req : JSString) (mode : Mode) (code : Option Int) :
    processFile.onClose host mainWindow fs inp (processFile.outputFile inp req mode) mode code =
      { events :=
          (processFile.onClose.handled host mainWindow fs inp (processFile.outputFile inp req mode)
            (processFile.outputFile inp req mode) mode code).events ++
          send mainWindow [Event.processCompleted
            (if (processFile.onClose.handled host mainWindow fs inp
                  (processFile.outputFile inp req mode) (processFile.outputFile inp req mode)
                  mode code).fs.existsSync (processFile.outputFile inp req mode)
             then 0 else codeOrOne code)],
        fs := (processFile.onClose.handled host mainWindow fs inp
          (processFile.outputFile inp req mode) (processFile.outputFile inp req mode) mode code).fs,
        fallbacks := (processFile.onClose.handled host mainWindow fs inp
          (processFile.outputFile inp req mode) (processFile.outputFile inp req mode) mode
          code).fallbacks } := by
  unfold processFile.onClose
  simp only [actualOutputPath_resolved, ite_self]

/-- C19: whatever the exit code of the master (zero, nonzero or `null`), when something exists at
the resolved output path as the master exits, the `close` handler calls neither
`fallbackEncryption` nor `fallbackDecryption`, leaves the file system as it is, and its last
message, the only `process-completed` it sends, carries code 0. -/
theorem artifact_based_success (host : Host) (mainWindow : Bool) (fs : FileSystem)
    (inp req : JSString) (mode : Mode) (code : Option Int)
    (h : fs.existsSync (processFile.outputFile inp req mode) = true) :
    (processFile.onClose host mainWindow fs inp (processFile.outputFile inp req mode) mode
      code).fallbacks = [] ∧
    (processFile.onClose host mainWindow fs inp (processFile.outputFile inp req mode) mode
      code).fs = fs ∧
    (processFile.onClose host mainWindow fs inp (processFile.outputFile inp req mode) mode
      code).events = send mainWindow
        ((if fs.statSync (processFile.outputFile inp req mode) then
            [Event.processOutput
              ("File processing completed successfully. Output saved to ".toList ++
                processFile.outputFile inp req mode)]
          else []) ++ [Event.processCompleted 0]) ∧
    (processFile.onClose host true fs inp (processFile.outputFile inp req mode) mode
      code).events.getLast? = some (Event.processCompleted 0) := by
  have hh := fun mw => handled_artifact host mw fs inp (processFile.outputFile inp req mode)
    mode code h
  refine ⟨?_, ?_, ?_, ?_⟩
  · rw [onClose_eq, hh]
  · rw [onClose_eq, hh]
  · rw [onClose_eq, hh]
    simp only [h, if_true]
    cases mainWindow <;> cases fs.statSync (processFile.outputFile inp req mode) <;> rfl
  · rw [onClose_eq, hh]
    simp only [h, if_true]
    cases fs.statSync (processFile.outputFile inp req mode) <;> rfl

/-- The `close` handler with exit code 3 on `artifactFs`, where the output
`d/plain.txt.encrypted` exists. -/
theorem artifact_based_success_witness :
    (processFile.onClose posixHost true artifactFs "d/plain.txt".toList
      (processFile.outputFile "d/plain.txt".toList [] Mode.encrypt) Mode.encrypt
      (some 3)).fallbacks = [] ∧
    (processFile.onClose posixHost true artifactFs "d/plain.txt".toList
      (processFile.outputFile "d/plain.txt".toList [] Mode.encrypt) Mode.encrypt
      (some 3)).events.getLast? = some (Event.processCompleted 0) := by
  have h := artifact_based_success posixHost true artifactFs "d/plain.txt".toList []
    Mode.encrypt (some 3) (by decide)
  exact ⟨h.1, h.2.2.2⟩

/-- C20: the last message of the `close` handler is `process-completed`, no earlier message of
the handler is, and its code is 0 exactly when the artifact, the resolved output path, exists
once the fallback has been handled; otherwise it is the exit code `c` itself when `c` is a
nonzero number, and 1 when the exit code is 0 or `null`. -/
theorem completion_code (host : Host) (fs : FileSystem) (inp req : JSString) (mode : Mode)
    (code : Option Int) :
    (processFile.onClose host true fs inp (processFile.outputFile inp req mode) mode
      code).events.getLast? = some (Event.processCompleted
        (if (processFile.onClose host true fs inp (processFile.outputFile inp req mode) mode
              code).fs.existsSync (processFile.outputFile inp req mode)
         then 0 else codeOrOne code)) ∧
    (∀ e ∈ (processFile.onClose host true fs inp (processFile.outputFile inp req mode) mode
        code).events.dropLast, ∀ c, e ≠ Event.processCompleted c) ∧
    ((if (processFile.onClose host true fs inp (processFile.outputFile inp req mode) mode
            code).fs.existsSync (processFile.outputFile inp req mode)
        then 0 else codeOrOne code) = 0 ↔
      (processFile.onClose host true fs inp (processFile.outputFile inp req mode) mode
        code).fs.existsSync (processFile.outputFile inp req mode) = true) ∧
    codeOrOne none = 1 ∧ codeOrOne (some 0) = 1 ∧
    (∀ c : Int, c ≠ 0 → codeOrOne (some c) = c) := by
  have hnz : ∀ c : Option Int, codeOrOne c ≠ 0 := by
    intro c
    cases c with
    | none => decide
    | some k =>
      unfold codeOrOne
      by_cases hk : k = 0
      · simp [hk]
      · simp [hk]
  refine ⟨?_, ?_, ?_, rfl, rfl, ?_⟩
  · rw [onClose_eq]
    simp only [send, if_true, List.getLast?_append_of_ne_nil _ (List.cons_ne_nil _ _),
      List.getLast?_singleton]
  · rw [onClose_eq]
    simp only [send, if_true]
    intro e he c
    rw [List.dropLast_concat] at he
    exact (handled_events host true fs inp _ _ mode code).2 e he c
  · constructor
    · intro h0
      by_contra hne
      simp only [hne, if_false] at h0
      exact hnz code h0
    · intro hex
      simp only [hex, if_true]
  · intro c hc
    simp [codeOrOne, hc]

/-- The `close` handler with exit code 3 for the missing input `d/nope.txt` on `helloFs`: the
fallback fails and the job completes with code 3. -/
theorem completion_code_witness :
    (3 : Int) ≠ 0 ∧ codeOrOne (some 3) = 3 ∧
    (processFile.onClose posixHost true helloFs "d/nope.txt".toList
      (processFile.outputFile "d/nope.txt".toList [] Mode.encrypt) Mode.encrypt
      (some 3)).events.getLast? = some (Event.processCompleted 3) := by
  have h := completion_code posixHost helloFs "d/nope.txt".toList [] Mode.encrypt (some 3)
  exact ⟨by decide, h.2.2.2.2.2 3 (by decide), h.1.trans (by decide)⟩

/-! ## Marker failure and empty key file -/

theorem store_existsSync (fs : FileSystem) (p q : JSString) (d : Buffer)
    (h : fs.existsSync q = true) : (fs.store p d).existsSync q = true := by
  unfold FileSystem.existsSync FileSystem.store at *
  by_cases hq : q = p
  · simp [hq]
  · simpa [hq] using h

/-- The state in which the secondary fallback starts when the write of the `.verified` marker
throws: the output already holds the decrypted bytes. -/
theorem fallbackDecryption_marker_throws (host : Host) (fs : FileSystem) (inp out : JSString)
    (D : Buffer)
    (hread : fs.readFileSync inp = some D)
    (hdir : fs.existsSync (host.dirname out) = true ∨
      fs.throws (FsCall.mkdirSync (host.dirname out)) = false)
    (hw : fs.throws (FsCall.writeFileSync out) = false)
    (hv : fs.throws (FsCall.writeFileSync (out ++ ".verified".toList)) = true) :
    ∃ fsd : FileSystem, fsd.files = fs.files ∧ fsd.throws = fs.throws ∧
      fsd.existsSync (host.dirname out) = true ∧
      fallbackDecryption.primary host fs inp out = Except.error
        (fsd.store out (xorLoop (fallbackDecryption.key host fs inp out).1 0 D)) := by
  obtain ⟨fsd, hd⟩ := ensureDir_isSome fs (host.dirname out) hdir
  obtain ⟨hfiles, hthrows⟩ := ensureDir_files fs fsd _ hd
  refine ⟨fsd, hfiles, hthrows, ensureDir_exists fs fsd _ hd, ?_⟩
  have hw1 : fsd.throws (FsCall.writeFileSync out) = false := by rw [hthrows]; exact hw
  have hv1 : ∀ d e, (fsd.store out d).writeFileSync (out ++ ".verified".toList) e = none := by
    intro d e
    unfold FileSystem.writeFileSync
    rw [store_throws, hthrows, hv]
    rfl
  unfold fallbackDecryption.primary
  simp only [hread, hd]
  rw [writeFileSync_ok _ _ _ hw1]
  simp only [hv1]

theorem keyAt_nil (j : Nat) : keyAt [] j = 0 := by
  simp [keyAt]

theorem xorByte_zero (b : Byte) : xorByte b 0 = b := by
  apply Fin.ext
  rw [xorByte_val b 0 (by decide)]
  simp

theorem xorLoop_nil_key (D : Buffer) : ∀ i, xorLoop [] i D = D := by
  induction D with
  | nil => intro i; rfl
  | cons b rest ih =>
    intro i
    simp only [xorLoop, keyAt_nil, xorByte_zero, ih]

theorem readKey_skip (fs : FileSystem) (pre rest : List JSString)
    (h : ∀ c ∈ pre, fs.existsSync c = false) :
    fallbackDecryption.readKey fs (pre ++ rest) = fallbackDecryption.readKey fs rest := by
  induction pre with
  | nil => rfl
  | cons c cs ih =>
    have hc : fs.existsSync c = false := h c (List.mem_cons_self _ _)
    simp only [List.cons_append, fallbackDecryption.readKey, hc, Bool.false_eq_true, if_false]
    exact ih (fun x hx => h x (List.mem_cons_of_mem _ hx))
/-- C25: when the input holds `D` and can be read, the output path differs from the input path,
the output directory exists or can be created and the write of the output does not throw, the
primary path leaves the decrypted bytes in the output; if the write of `outputPath + ".verified"`
then throws while the copy and the append do not, `fallbackDecryption` returns `true` and the
output finally holds `D` followed by the placeholder notice, which is not the decrypted
content. -/
theorem marker_failure_placeholder (host : Host) (fs : FileSystem) (inp out : JSString)
    (D : Buffer)
    (hne : inp ≠ out)
    (hread : fs.readFileSync inp = some D)
    (hdir : fs.existsSync (host.dirname out) = true ∨
      fs.throws (FsCall.mkdirSync (host.dirname out)) = false)
    (hw : fs.throws (FsCall.writeFileSync out) = false)
    (hv : fs.throws (FsCall.writeFileSync (out ++ ".verified".toList)) = true)
    (hc : fs.throws (FsCall.copyFileSync inp out) = false)
    (ha : fs.throws (FsCall.appendFileSync out) = false) :
    (∃ fs2, fallbackDecryption.primary host fs inp out = Except.error fs2 ∧
      fs2.files out = some (xorLoop (fallbackDecryption.key host fs inp out).1 0 D)) ∧
    (∃ fs1, fallbackDecryption host fs inp out = (true, fs1) ∧
      fs1.files out = some (D ++ Buffer.from
        "\n\nTHIS IS A PLACEHOLDER FILE - ACTUAL DECRYPTION FAILED\n".toList)) ∧
    D ++ Buffer.from "\n\nTHIS IS A PLACEHOLDER FILE - ACTUAL DECRYPTION FAILED\n".toList
      ≠ xorLoop (fallbackDecryption.key host fs inp out).1 0 D := by
  obtain ⟨fsd, hfiles, hthrows, hex, hprim⟩ :=
    fallbackDecryption_marker_throws host fs inp out D hread hdir hw hv
  have hin : (fsd.store out (xorLoop (fallbackDecryption.key host fs inp out).1 0 D)).files inp
      = some D := by
    rw [store_files_other _ _ _ _ hne, hfiles]
    exact ((readFileSync_eq_some _ _ _).1 hread).2
  refine ⟨⟨_, hprim, store_files_self _ _ _⟩, ?_, ?_⟩
  · unfold fallbackDecryption
    rw [hprim]
    simp only []
    rw [secondary_of_dir host _ inp out D (store_existsSync _ _ _ _ hex) hin, store_throws,
      hthrows, hc, ha]
    simp only [Bool.false_eq_true, if_false]
    exact ⟨_, rfl, store_files_self _ _ _⟩
  · intro heq
    have hlen := congrArg List.length heq
    rw [xorLoop_length, List.length_append] at hlen
    have hn : 0 < (Buffer.from
        "\n\nTHIS IS A PLACEHOLDER FILE - ACTUAL DECRYPTION FAILED\n".toList).length := by
      decide
    omega

/-- Decryption of `d/h.encrypted` to `d/h.txt` on `lockedMarkerFs`, where the write of
`d/h.txt.verified` throws: the output is the raw input followed by the notice. -/
theorem marker_failure_placeholder_witness :
    ∃ fs1, fallbackDecryption posixHost lockedMarkerFs "d/h.encrypted".toList "d/h.txt".toList
        = (true, fs1) ∧
      fs1.files "d/h.txt".toList = some
        (xorLoop defaultKey 0 (Buffer.from "hello world".toList) ++
          Buffer.from "\n\nTHIS IS A PLACEHOLDER FILE - ACTUAL DECRYPTION FAILED\n".toList) :=
  (marker_failure_placeholder posixHost lockedMarkerFs "d/h.encrypted".toList "d/h.txt".toList
    (xorLoop defaultKey 0 (Buffer.from "hello world".toList))
    (by decide) (by decide) (Or.inl (by decide)) (by decide) (by decide) (by decide)
    (by decide)).2.1

/-- C29: when the first existing candidate key file `k` can be read and is empty, and the input
can be read, the output directory exists or can be created and the two writes do not throw,
`fallbackDecryption` keeps the empty key read from `k` instead of the default key; `key[i % 0]`
contributes 0 at every index, so the function returns `true` and the output is a byte-for-byte
copy of the input. -/
theorem empty_key_file (host : Host) (fs : FileSystem) (inp out : JSString) (D : Buffer)
    (pre post : List JSString) (k : JSString)
    (hread : fs.readFileSync inp = some D)
    (hcands : fallbackDecryption.possibleKeyFiles host fs inp out = pre ++ k :: post)
    (hpre : ∀ c ∈ pre, fs.existsSync c = false)
    (hk : fs.readFileSync k = some [])
    (hdir : fs.existsSync (host.dirname out) = true ∨
      fs.throws (FsCall.mkdirSync (host.dirname out)) = false)
    (hw : fs.throws (FsCall.writeFileSync out) = false)
    (hv : fs.throws (FsCall.writeFileSync (out ++ ".verified".toList)) = false) :
    fallbackDecryption.key host fs inp out = ([], k) ∧
    (∀ i : Nat, keyAt [] (i % ([] : Buffer).length) = 0) ∧
    xorLoop [] 0 D = D ∧
    ∃ fs1, fallbackDecryption host fs inp out = (true, fs1) ∧ fs1.files out = some D := by
  have hkey : fallbackDecryption.key host fs inp out = ([], k) := by
    unfold fallbackDecryption.key
    rw [hcands, readKey_skip fs pre _ hpre, readKey_head fs k post [] hk]
  obtain ⟨fs1, h1, h2⟩ := fallbackDecryption_ok host fs inp out D hread hdir hw hv
  refine ⟨hkey, fun i => keyAt_nil _, xorLoop_nil_key D 0, fs1, h1, ?_⟩
  rw [h2, hkey, xorLoop_nil_key]

/-- Decryption of `d/e.encrypted` to `d/e` on `emptyKeyFs`, whose first existing candidate
`d/e.encrypted.key` is empty: the output is a copy of the input. -/
theorem empty_key_file_witness :
    fallbackDecryption.key posixHost emptyKeyFs "d/e.encrypted".toList "d/e".toList
      = ([], "d/e.encrypted.key".toList) ∧
    ∃ fs1, fallbackDecryption posixHost emptyKeyFs "d/e.encrypted".toList "d/e".toList
        = (true, fs1) ∧ fs1.files "d/e".toList = some [1, 2, 3] := by
  have h := empty_key_file posixHost emptyKeyFs "d/e.encrypted".toList "d/e".toList [1, 2, 3]
    [] ["d/e.key".toList, "d/encryption_key.bin".toList] "d/e.encrypted.key".toList
    (by decide) (by decide) (by decide) (by decide) (Or.inl (by decide)) (by decide) (by decide)
  exact ⟨h.1, h.2.2.2⟩

/-! ## Naming round trip, the renderer's suggestion, and the stripped key candidate -/

theorem updateOutputPath_eq (p : JSString) (isEncrypt : Bool) (hp : p ≠ []) :
    updateOutputPath p isEncrypt =
      some (processFile.outputFile p [] (if isEncrypt then Mode.encrypt else Mode.decrypt)) := by
  have hemp : p.isEmpty = false := by
    cases p with
    | nil => exact absurd rfl hp
    | cons c cs => rfl
  unfold updateOutputPath processFile.outputFile
  cases isEncrypt with
  | true => simp only [hemp, Bool.false_eq_true, if_false, if_true, List.isEmpty_nil]
  | false =>
    have hne : ¬ (Mode.decrypt = Mode.encrypt) := by decide
    simp only [hemp, Bool.false_eq_true, if_false, if_true, List.isEmpty_nil, hne]
    split
    · rfl
    · split <;> rfl

/-- C23: evaluation of the candidate derived from the stripped input at
`a.encrypted.b.encrypted`, in the list of `fallbackDecryption`: `replace` removes the first
`.encrypted`, so the candidate is `a.b.encrypted.key`, not `a.encrypted.b.key`; likewise
`dir.encrypted/f.encrypted` gives `dir/f.encrypted.key`. -/
theorem stripped_key_candidate_first_occurrence :
    fallbackDecryption.possibleKeyFiles posixHost noKeyFs "a.encrypted.b.encrypted".toList
        "out".toList =
      [ "a.encrypted.b.encrypted.key".toList, "a.b.encrypted.key".toList,
        "encryption_key.bin".toList ] ∧
    replace "a.encrypted.b.encrypted".toList ".encrypted".toList [] ++ ".key".toList
      ≠ "a.encrypted.b.key".toList ∧
    replace "dir.encrypted/f.encrypted".toList ".encrypted".toList [] ++ ".key".toList
      = "dir/f.encrypted.key".toList ∧
    processFile.outputFile "a.encrypted.b.encrypted".toList [] Mode.decrypt
      = "a.encrypted.b".toList := by
  decide

/-- C26: resolving the default Encrypt output of any path `p` and then the default Decrypt
output of the result gives back `p`, in `processFile` and, for a non-empty `p`, in
`updateOutputPath`; so `x.encrypted` goes to `x.encrypted.encrypted` and back. -/
theorem naming_round_trip (p : JSString) :
    processFile.outputFile (processFile.outputFile p [] Mode.encrypt) [] Mode.decrypt = p ∧
    (p ≠ [] → updateOutputPath p true = some (p ++ ".encrypted".toList) ∧
      updateOutputPath (p ++ ".encrypted".toList) false = some p) ∧
    processFile.outputFile "x.encrypted".toList [] Mode.encrypt
      = "x.encrypted.encrypted".toList ∧
    processFile.outputFile "x.encrypted.encrypted".toList [] Mode.decrypt
      = "x.encrypted".toList := by
  refine ⟨?_, ?_, by decide, by decide⟩
  · rw [outputFile_default_encrypt, outputFile_default_decrypt_strip]
  · intro hp
    have hne : p ++ ".encrypted".toList ≠ [] := by
      intro h
      exact hp (List.append_eq_nil.1 h).1
    rw [updateOutputPath_eq p true hp, updateOutputPath_eq _ false hne]
    simp only [if_true, Bool.false_eq_true, if_false, outputFile_default_encrypt,
      outputFile_default_decrypt_strip]
    exact ⟨trivial, trivial⟩

/-- The round trip of `notes.txt` in `updateOutputPath`. -/
theorem naming_round_trip_witness :
    "notes.txt".toList ≠ [] ∧
    updateOutputPath "notes.txt".toList true = some "notes.txt.encrypted".toList ∧
    updateOutputPath "notes.txt.encrypted".toList false = some "notes.txt".toList := by
  have h := (naming_round_trip "notes.txt".toList).2.1 (by decide)
  exact ⟨by decide, h.1.trans (by decide), (by decide : updateOutputPath
    "notes.txt.encrypted".toList false = updateOutputPath ("notes.txt".toList ++
      ".encrypted".toList) false).trans h.2⟩

/-- C27: for every input path, mode and requested output, the path `actualOutputPath` recomputed
by the `close` handler is the resolved output path.  The resolved path is empty only in Decrypt
mode for the input `.encrypted`, where `slice(0, -10)` and `substring(0, lastIndexOf(...))` both
give the empty string; hence the artifact check, the fallback target and the final success
check of the handler all use the resolved path. -/
theorem actualOutputPath_redundant (host : Host) (mainWindow : Bool) (fs : FileSystem)
    (inp req : JSString) (mode : Mode) (code : Option Int) :
    processFile.actualOutputPath inp (processFile.outputFile inp req mode) mode
      = processFile.outputFile inp req mode ∧
    (processFile.outputFile inp req mode = [] →
      mode = Mode.decrypt ∧ inp = ".encrypted".toList) ∧
    slice ".encrypted".toList 0 (-(".encrypted".toList.length : Int)) = [] ∧
    substring ".encrypted".toList 0 (lastIndexOf ".encrypted".toList ".encrypted".toList) = [] ∧
    processFile.onClose host mainWindow fs inp (processFile.outputFile inp req mode) mode code =
      { events :=
          (processFile.onClose.handled host mainWindow fs inp (processFile.outputFile inp req mode)
            (processFile.outputFile inp req mode) mode code).events ++
          send mainWindow [Event.processCompleted
            (if (processFile.onClose.handled host mainWindow fs inp
                  (processFile.outputFile inp req mode) (processFile.outputFile inp req mode)
                  mode code).fs.existsSync (processFile.outputFile inp req mode)
             then 0 else codeOrOne code)],
        fs := (processFile.onClose.handled host mainWindow fs inp
          (processFile.outputFile inp req mode) (processFile.outputFile inp req mode) mode code).fs,
        fallbacks := (processFile.onClose.handled host mainWindow fs inp
          (processFile.outputFile inp req mode) (processFile.outputFile inp req mode) mode
          code).fallbacks } :=
  ⟨actualOutputPath_resolved inp req mode, outputFile_eq_nil inp req mode, by decide, by decide,
    onClose_eq host mainWindow fs inp req mode code⟩

/-- The one job whose resolved output is empty: Decrypt of `.encrypted` with no requested
output. -/
theorem actualOutputPath_redundant_witness :
    processFile.outputFile ".encrypted".toList [] Mode.decrypt = [] ∧
    processFile.actualOutputPath ".encrypted".toList
      (processFile.outputFile ".encrypted".toList [] Mode.decrypt) Mode.decrypt = [] := by
  have h := actualOutputPath_redundant posixHost true helloFs ".encrypted".toList []
    Mode.decrypt none
  exact ⟨by decide, h.1.trans (by decide)⟩

/-- C28: for every non-empty input path and both modes, `updateOutputPath` computes the path
that `processFile` resolves when no output is requested, and `processFile` resolves to that
same path when it is passed back as the requested output. -/
theorem suggestion_agrees (p : JSString) (mode : Mode) (hp : p ≠ []) :
    updateOutputPath p (decide (mode = Mode.encrypt)) = some (processFile.outputFile p [] mode) ∧
    processFile.outputFile p (processFile.outputFile p [] mode) mode
      = processFile.outputFile p [] mode := by
  constructor
  · rw [updateOutputPath_eq p _ hp]
    cases mode <;> rfl
  · by_cases hs : processFile.outputFile p [] mode = []
    · rw [hs, hs]
    · rw [outputFile_requested p _ mode hs]
      cases mode with
      | encrypt =>
        simp only [if_true]
        rw [if_pos]
        rw [outputFile_default_encrypt]
        exact endsWith_append _ _
      | decrypt =>
        have hne : ¬ (Mode.decrypt = Mode.encrypt) := by decide
        simp only [hne, if_false]
        rw [if_neg (outputFile_default_decrypt_ne p)]

/-- The suggestion for decrypting `report.pdf.encrypted`, which is `report.pdf`. -/
theorem suggestion_agrees_witness :
    "report.pdf.encrypted".toList ≠ [] ∧
    updateOutputPath "report.pdf.encrypted".toList false = some "report.pdf".toList ∧
    processFile.outputFile "report.pdf.encrypted".toList "report.pdf".toList Mode.decrypt
      = "report.pdf".toList := by
  have h := suggestion_agrees "report.pdf.encrypted".toList Mode.decrypt (by decide)
  exact ⟨by decide, h.1.trans (by decide), (by decide : processFile.outputFile
    "report.pdf.encrypted".toList "report.pdf".toList Mode.decrypt = processFile.outputFile
      "report.pdf.encrypted".toList (processFile.outputFile "report.pdf.encrypted".toList []
        Mode.decrypt) Mode.decrypt).trans (h.2.trans (by decide))⟩

/-! ## Fallback on a missing artifact and the messages of a job -/

/-- The `close` handler when nothing exists at the output path: the fallback of the job's mode
runs once on the input and output paths. -/
theorem handled_missing (host : Host) (mainWindow : Bool) (fs : FileSystem)
    (inp out : JSString) (mode : Mode) (code : Option Int)
    (h : fs.existsSync out = false) :
    processFile.onClose.handled host mainWindow fs inp out out mode code =
      { events := send mainWindow
          [ if (if mode = Mode.encrypt then fallbackEncryption fs inp out
                else fallbackDecryption host fs inp out).1 then
              Event.processOutput
                ("File processing completed using fallback method. Output saved to ".toList ++
                  out)
            else
              Event.processError
                ("File processing failed with code: ".toList ++ codeText code ++
                  ". Fallback method also failed.".toList) ],
        fs := (if mode = Mode.encrypt then fallbackEncryption fs inp out
               else fallbackDecryption host fs inp out).2,
        fallbacks :=
          [ if mode = Mode.encrypt then FallbackCall.fallbackEncryption inp out
            else FallbackCall.fallbackDecryption inp out ] } := by
  unfold processFile.onClose.handled
  simp only [h, Bool.false_or, Bool.and_false, Bool.false_eq_true, if_false, Bool.not_false,
    Bool.or_true, if_true, ite_self]
  cases mode with
  | encrypt =>
    simp only [if_true]
    cases (fallbackEncryption fs inp out).1 <;> rfl
  | decrypt =>
    have hne : ¬ (Mode.decrypt = Mode.encrypt) := by decide
    simp only [hne, if_false]
    cases (fallbackDecryption host fs inp out).1 <;> rfl

theorem codeOrOne_ne_zero (code : Option Int) : codeOrOne code ≠ 0 := by
  cases code with
  | none => decide
  | some k =>
    unfold codeOrOne
    by_cases hk : k = 0
    · simp [hk]
    · simp [hk]

theorem completedCodes_append (a b : List Event) :
    completedCodes (a ++ b) = completedCodes a ++ completedCodes b := by
  induction a with
  | nil => rfl
  | cons e rest ih =>
    cases e with
    | processCompleted c =>
      show c :: completedCodes (rest ++ b) = c :: completedCodes rest ++ completedCodes b
      rw [ih]
      rfl
    | processError o => exact ih
    | processWarning o => exact ih
    | processOutput o => exact ih

theorem completedCodes_eq_nil (l : List Event)
    (h : ∀ e ∈ l, ∀ c, e ≠ Event.processCompleted c) : completedCodes l = [] := by
  induction l with
  | nil => rfl
  | cons e rest ih =>
    have hrest := ih (fun x hx => h x (List.mem_cons_of_mem _ hx))
    cases e with
    | processCompleted c => exact absurd rfl (h _ (List.mem_cons_self _ _) c)
    | processError o => simpa only [completedCodes] using hrest
    | processWarning o => simpa only [completedCodes] using hrest
    | processOutput o => simpa only [completedCodes] using hrest

/-- The one `process-completed` code of a run of the `close` handler when the window exists. -/
theorem completedCodes_onClose (host : Host) (fs : FileSystem) (inp req : JSString)
    (mode : Mode) (code : Option Int) :
    completedCodes (processFile.onClose host true fs inp (processFile.outputFile inp req mode)
        mode code).events =
      [ if (processFile.onClose host true fs inp (processFile.outputFile inp req mode) mode
            code).fs.existsSync (processFile.outputFile inp req mode)
        then 0 else codeOrOne code ] := by
  rw [onClose_eq]
  simp only [send, if_true]
  rw [completedCodes_append,
    completedCodes_eq_nil _ (handled_events host true fs inp _ _ mode code).2]
  rfl

/-- C21: whatever the exit code of the master, 0 included, when nothing exists at the resolved
output path as the master exits, the `close` handler calls the fallback codec exactly once,
`fallbackEncryption(input, output)` in Encrypt mode and `fallbackDecryption(input, output)` in
Decrypt mode, leaves the file system that this call left, and sends one `process-completed`,
with code 0 if the output exists after the fallback and with the nonzero `code || 1`
otherwise. -/
theorem fallback_on_missing_artifact (host : Host) (mainWindow : Bool) (fs : FileSystem)
    (inp req : JSString) (mode : Mode) (code : Option Int)
    (h : fs.existsSync (processFile.outputFile inp req mode) = false) :
    (processFile.onClose host mainWindow fs inp (processFile.outputFile inp req mode) mode
      code).fallbacks =
      [ if mode = Mode.encrypt then
          FallbackCall.fallbackEncryption inp (processFile.outputFile inp req mode)
        else FallbackCall.fallbackDecryption inp (processFile.outputFile inp req mode) ] ∧
    (processFile.onClose host mainWindow fs inp (processFile.outputFile inp req mode) mode
      code).fs =
      (if mode = Mode.encrypt then
          fallbackEncryption fs inp (processFile.outputFile inp req mode)
        else fallbackDecryption host fs inp (processFile.outputFile inp req mode)).2 ∧
    completedCodes (processFile.onClose host true fs inp (processFile.outputFile inp req mode)
        mode code).events =
      [ if (if mode = Mode.encrypt then
              fallbackEncryption fs inp (processFile.outputFile inp req mode)
            else fallbackDecryption host fs inp (processFile.outputFile inp req mode)).2.existsSync
            (processFile.outputFile inp req mode)
        then 0 else codeOrOne code ] ∧
    codeOrOne code ≠ 0 := by
  have hm := fun mw => handled_missing host mw fs inp (processFile.outputFile inp req mode)
    mode code h
  refine ⟨?_, ?_, ?_, codeOrOne_ne_zero code⟩
  · rw [onClose_eq, hm]
  · rw [onClose_eq, hm]
  · rw [completedCodes_onClose, onClose_eq, hm]

/-- The `close` handler with exit code 0 for `d/plain.txt` on `helloFs`, where no output exists:
`fallbackEncryption` runs once and the job completes with code 0. -/
theorem fallback_on_missing_artifact_witness :
    (processFile.onClose posixHost true helloFs "d/plain.txt".toList
      (processFile.outputFile "d/plain.txt".toList [] Mode.encrypt) Mode.encrypt
      (some 0)).fallbacks =
      [FallbackCall.fallbackEncryption "d/plain.txt".toList "d/plain.txt.encrypted".toList] ∧
    completedCodes (processFile.onClose posixHost true helloFs "d/plain.txt".toList
      (processFile.outputFile "d/plain.txt".toList [] Mode.encrypt) Mode.encrypt
      (some 0)).events = [0] := by
  have h := fallback_on_missing_artifact posixHost true helloFs "d/plain.txt".toList []
    Mode.encrypt (some 0) (by decide)
  exact ⟨h.1.trans (by decide), h.2.2.1.trans (by decide)⟩

/-- C22, counterexample: for the job encrypting `d/plain.txt` on `helloFs`, an `error` event
followed by a `close` event makes the handlers send `process-completed` twice, first with
code -1 and then, the fallback having produced the output, with code 0. -/
theorem outcome_reverts_after_error :
    completedCodes (processFile.deliver posixHost true "d/plain.txt".toList
      (processFile.outputFile "d/plain.txt".toList [] Mode.encrypt) Mode.encrypt helloFs
      [MasterEvent.error "spawn ENOENT".toList, MasterEvent.close (some (-2))]).1 = [-1, 0] := by
  decide

/-- C22, amended: with the window present, a lone `error` event reports one `process-completed`,
with code -1, and a lone `close` event reports one, with code 0 when the resolved output exists
after the fallback handling and `code || 1` otherwise; an `error` followed by a `close` reports
two, -1 and then the code of the `close` handler, which is 0 exactly when the output exists after
the fallback handling. -/
theorem completed_codes_of_master_events (host : Host) (fs : FileSystem) (inp req : JSString)
    (mode : Mode) (message : JSString) (code : Option Int) :
    completedCodes (processFile.deliver host true inp (processFile.outputFile inp req mode) mode
      fs [MasterEvent.error message]).1 = [-1] ∧
    completedCodes (processFile.deliver host true inp (processFile.outputFile inp req mode) mode
      fs [MasterEvent.close code]).1 =
      [ if (processFile.onClose host true fs inp (processFile.outputFile inp req mode) mode
            code).fs.existsSync (processFile.outputFile inp req mode)
        then 0 else codeOrOne code ] ∧
    completedCodes (processFile.deliver host true inp (processFile.outputFile inp req mode) mode
      fs [MasterEvent.error message, MasterEvent.close code]).1 =
      [ -1,
        if (processFile.onClose host true fs inp (processFile.outputFile inp req mode) mode
            code).fs.existsSync (processFile.outputFile inp req mode)
        then 0 else codeOrOne code ] ∧
    ((if (processFile.onClose host true fs inp (processFile.outputFile inp req mode) mode
            code).fs.existsSync (processFile.outputFile inp req mode)
        then 0 else codeOrOne code) = 0 ↔
      (processFile.onClose host true fs inp (processFile.outputFile inp req mode) mode
        code).fs.existsSync (processFile.outputFile inp req mode) = true) := by
  have hclose := completedCodes_onClose host fs inp req mode code
  refine ⟨rfl, ?_, ?_, ?_⟩
  · simp only [processFile.deliver, List.append_nil]
    exact hclose
  · simp only [processFile.deliver, List.append_nil]
    rw [completedCodes_append, hclose]
    rfl
  · constructor
    · intro h0
      by_contra hne
      simp only [hne, if_false] at h0
      exact codeOrOne_ne_zero code h0
    · intro hex
      simp only [hex, if_true]

/-- C24, counterexample: on `lockedKeyFs`, where the write of the `.key` file throws,
`fallbackEncryption` writes the output and returns `false`; the `close` handler sends the text
saying that the fallback method also failed, followed by `process-completed` with code 0. -/
theorem failure_text_then_code_zero :
    processFile.outputFile "d/plain.txt".toList [] Mode.encrypt
      = "d/plain.txt.encrypted".toList ∧
    (fallbackEncryption lockedKeyFs "d/plain.txt".toList "d/plain.txt.encrypted".toList).1
      = false ∧
    (fallbackEncryption lockedKeyFs "d/plain.txt".toList "d/plain.txt.encrypted".toList).2.files
      "d/plain.txt.encrypted".toList
      = some (xorLoop defaultKey 0 (Buffer.from "hello world".toList)) ∧
    (processFile.onClose posixHost true lockedKeyFs "d/plain.txt".toList
      "d/plain.txt.encrypted".toList Mode.encrypt (some 1)).events =
      [ Event.processError
          "File processing failed with code: 1. Fallback method also failed.".toList,
        Event.processCompleted 0 ] := by
  decide

/-- C24, amended: when nothing exists at the resolved output path as the master exits and the
fallback function returns `false`, the `close` handler sends the text saying that the fallback
method also failed and then `process-completed`, whose code is nonzero (`code || 1`) exactly
when nothing exists at the resolved output path after the fallback and 0 when something does; in
particular, when `fallbackEncryption` wrote the output and then failed to write the `.key`
file, the code is 0. -/
theorem failure_text_completion_code (host : Host) (fs : FileSystem) (inp req : JSString)
    (mode : Mode) (code : Option Int)
    (h : fs.existsSync (processFile.outputFile inp req mode) = false)
    (hfail : (if mode = Mode.encrypt then
                fallbackEncryption fs inp (processFile.outputFile inp req mode)
              else fallbackDecryption host fs inp (processFile.outputFile inp req mode)).1
              = false) :
    (processFile.onClose host true fs inp (processFile.outputFile inp req mode) mode
      code).events =
      [ Event.processError ("File processing failed with code: ".toList ++ codeText code ++
          ". Fallback method also failed.".toList),
        Event.processCompleted
          (if (if mode = Mode.encrypt then
                  fallbackEncryption fs inp (processFile.outputFile inp req mode)
                else fallbackDecryption host fs inp
                  (processFile.outputFile inp req mode)).2.existsSync
                (processFile.outputFile inp req mode)
           then 0 else codeOrOne code) ] ∧
    ((if (if mode = Mode.encrypt then
              fallbackEncryption fs inp (processFile.outputFile inp req mode)
            else fallbackDecryption host fs inp
              (processFile.outputFile inp req mode)).2.existsSync
            (processFile.outputFile inp req mode)
       then 0 else codeOrOne code) ≠ 0 ↔
      (if mode = Mode.encrypt then
          fallbackEncryption fs inp (processFile.outputFile inp req mode)
        else fallbackDecryption host fs inp
          (processFile.outputFile inp req mode)).2.existsSync
        (processFile.outputFile inp req mode) = false) ∧
    (mode = Mode.encrypt → ∀ D, fs.readFileSync inp = some D →
      fs.throws (FsCall.writeFileSync (processFile.outputFile inp req mode)) = false →
      fs.throws (FsCall.writeFileSync (processFile.outputFile inp req mode ++ ".key".toList))
        = true →
      (processFile.onClose host true fs inp (processFile.outputFile inp req mode) mode
        code).events.getLast? = some (Event.processCompleted 0)) := by
  have hev : (processFile.onClose host true fs inp (processFile.outputFile inp req mode) mode
      code).events =
      [ Event.processError ("File processing failed with code: ".toList ++ codeText code ++
          ". Fallback method also failed.".toList),
        Event.processCompleted
          (if (if mode = Mode.encrypt then
                  fallbackEncryption fs inp (processFile.outputFile inp req mode)
                else fallbackDecryption host fs inp
                  (processFile.outputFile inp req mode)).2.existsSync
                (processFile.outputFile inp req mode)
           then 0 else codeOrOne code) ] := by
    rw [onClose_eq, handled_missing host true fs inp _ mode code h, hfail]
    rfl
  refine ⟨hev, ?_, ?_⟩
  · constructor
    · intro hne
      by_contra hex
      simp only [Bool.not_eq_false] at hex
      simp only [hex, if_true] at hne
      exact hne rfl
    · intro hex
      simp only [hex, Bool.false_eq_true, if_false]
      exact codeOrOne_ne_zero code
  · intro hmode D hread hw hk
    subst hmode
    rw [hev]
    have hwrote : (fallbackEncryption fs inp
        (processFile.outputFile inp req Mode.encrypt)).2.existsSync
        (processFile.outputFile inp req Mode.encrypt) = true := by
      unfold fallbackEncryption
      simp only [hread]
      rw [writeFileSync_ok _ _ _ hw]
      simp only []
      have hkn : ∀ d e, (fs.store (processFile.outputFile inp req Mode.encrypt) d).writeFileSync
          (processFile.outputFile inp req Mode.encrypt ++ ".key".toList) e = none := by
        intro d e
        unfold FileSystem.writeFileSync
        rw [store_throws, hk]
        rfl
      rw [hkn]
      exact existsSync_of_files _ _ _ (store_files_self _ _ _)
    simp only [if_true, hwrote]
    rfl

/-- The `close` handler with exit code 1 for `d/plain.txt` on `lockedKeyFs`: the failure text
is followed by code 0. -/
theorem failure_text_completion_code_witness :
    (processFile.onClose posixHost true lockedKeyFs "d/plain.txt".toList
      (processFile.outputFile "d/plain.txt".toList [] Mode.encrypt) Mode.encrypt
      (some 1)).events.getLast? = some (Event.processCompleted 0) :=
  (failure_text_completion_code posixHost lockedKeyFs "d/plain.txt".toList [] Mode.encrypt
    (some 1) (by decide) (by decide)).2.2 rfl (Buffer.from "hello world".toList) (by decide)
    (by decide) (by decide)

/-- C30: evaluation of the exit of the first worker's process after `stopAllWorkers` and a new
`startWorker`.  The first worker got id 0; `stopAllWorkers` empties the list; the next worker,
with process 102, gets id 0 again; the `close` handler of the first process, which looks up id
0, sets the entry of process 102 to `stopped`. -/
theorem stale_exit_stops_new_worker :
    (startWorker [] "127.0.0.1:50051".toList { pid := 101 }).2.id = 0 ∧
    stopAllWorkers (startWorker [] "127.0.0.1:50051".toList { pid := 101 }).1 (fun _ => false)
      = [] ∧
    (startWorker
        (stopAllWorkers (startWorker [] "127.0.0.1:50051".toList { pid := 101 }).1
          (fun _ => false))
        "127.0.0.1:50052".toList { pid := 102 }).1
      = [{ id := 0, process := some { pid := 102 }, address := "127.0.0.1:50052".toList,
           status := WorkerStatus.running }] ∧
    startWorker.onClose
        [{ id := 0, process := some { pid := 102 }, address := "127.0.0.1:50052".toList,
           status := WorkerStatus.running }] 0
      = [{ id := 0, process := some { pid := 102 }, address := "127.0.0.1:50052".toList,
           status := WorkerStatus.stopped }] := by
  decide

/-! ## Order of key discovery -/

theorem readKey_eq_firstReadable (fs : FileSystem) (l : List JSString) :
    fallbackDecryption.readKey fs l = firstReadableKey fs l := by
  induction l with
  | nil => rfl
  | cons c rest ih =>
    unfold firstReadableKey at ih ⊢
    cases he : fs.existsSync c with
    | false =>
      simp only [fallbackDecryption.readKey, he, Bool.false_eq_true, if_false, List.find?_cons,
        Bool.false_and]
      exact ih
    | true =>
      cases hr : fs.readFileSync c with
      | none =>
        simp only [fallbackDecryption.readKey, he, if_true, hr, List.find?_cons,
          Option.isSome_none, Bool.and_false]
        exact ih
      | some K =>
        simp only [fallbackDecryption.readKey, he, if_true, hr, List.find?_cons,
          Option.isSome_some, Bool.and_true, Option.map_some', Option.getD_some]

theorem readKey_candidates (host : Host) (fs : FileSystem) (inp out : JSString) :
    fallbackDecryption.readKey fs (fallbackDecryption.possibleKeyFiles host fs inp out) =
      fallbackDecryption.readKey fs
        [ out ++ ".key".toList, inp ++ ".key".toList,
          replace inp ".encrypted".toList [] ++ ".key".toList,
          host.join (host.dirname inp) "encryption_key.bin".toList ] := by
  rw [possibleKeyFiles_eq]
  cases he : fs.existsSync (out ++ ".key".toList) with
  | true => rfl
  | false =>
    simp only [Bool.false_eq_true, if_false, List.nil_append]
    exact (readKey_skip fs [out ++ ".key".toList] _ (by
      intro c hc
      rw [List.mem_singleton] at hc
      rw [hc]
      exact he)).symm

/-- When the only occurrence of `.encrypted` in `t ++ ".encrypted"` is the trailing one,
`replace` removes that suffix. -/
theorem replace_trailing (t : JSString) :
    (∀ i, i < t.length →
      ".encrypted".toList.isPrefixOf ((t ++ ".encrypted".toList).drop i) = false) →
    replace (t ++ ".encrypted".toList) ".encrypted".toList [] = t := by
  induction t with
  | nil => intro _; decide
  | cons c cs ih =>
    intro h
    have h0 : ".encrypted".toList.isPrefixOf (c :: (cs ++ ".encrypted".toList)) = false := by
      have := h 0 (by simp)
      simpa using this
    have hrest : ∀ i, i < cs.length →
        ".encrypted".toList.isPrefixOf ((cs ++ ".encrypted".toList).drop i) = false := by
      intro i hi
      have := h (i + 1) (by simp; omega)
      simpa using this
    show replace (c :: (cs ++ ".encrypted".toList)) ".encrypted".toList [] = c :: cs
    unfold replace
    rw [if_neg (by rw [h0]; exact Bool.false_ne_true), ih hrest]

/-- When `.encrypted` occurs nowhere in `s`, `replace` leaves `s` as it is. -/
theorem replace_absent (s : JSString) :
    (∀ i, i < s.length → ".encrypted".toList.isPrefixOf (s.drop i) = false) →
    replace s ".encrypted".toList [] = s := by
  induction s with
  | nil => intro _; decide
  | cons c cs ih =>
    intro h
    have h0 : ".encrypted".toList.isPrefixOf (c :: cs) = false := by
      have := h 0 (by simp)
      simpa using this
    have hrest : ∀ i, i < cs.length → ".encrypted".toList.isPrefixOf (cs.drop i) = false := by
      intro i hi
      have := h (i + 1) (by simp; omega)
      simpa using this
    unfold replace
    rw [if_neg (by rw [h0]; exact Bool.false_ne_true), ih hrest]

/-- When `.encrypted` occurs nowhere in the input before the suffix that `strippedInput` removes,
the `replace` of the source computes the stripped input. -/
theorem replace_eq_strippedInput (inp : JSString)
    (h : ∀ i, i < (strippedInput inp).length →
      ".encrypted".toList.isPrefixOf (inp.drop i) = false) :
    replace inp ".encrypted".toList [] = strippedInput inp := by
  cases he : endsWith inp ".encrypted".toList with
  | false =>
    have hs : strippedInput inp = inp := by
      unfold strippedInput
      rw [he]
      rfl
    rw [hs] at h ⊢
    exact replace_absent inp h
  | true =>
    obtain ⟨t, rfl⟩ := (endsWith_iff _ _).1 he
    have hs : strippedInput (t ++ ".encrypted".toList) = t := by
      unfold strippedInput
      rw [he]
      simp
    rw [hs] at h ⊢
    exact replace_trailing t h

/-- C10, amended: the key of `fallbackDecryption` is the content of the first candidate that
exists and can be read, in the order `outputPath + ".key"`, `inputPath + ".key"`, the stripped
input followed by `.key`, the sibling `encryption_key.bin`, and the hardcoded key when there is
none; this is stated for inputs in which `.encrypted` occurs nowhere before the suffix that is
stripped.  For every input, `outputPath + ".key"` is used when it can be read, and
`inputPath + ".key"` is used, whether or not `encryption_key.bin` exists, when
`outputPath + ".key"` does not exist.  When the writes do not throw, the output is the input
XORed with the key found. -/
theorem key_discovery_order (host : Host) (fs : FileSystem) (inp out : JSString) :
    (∀ K : Buffer, fs.readFileSync (out ++ ".key".toList) = some K →
      fallbackDecryption.key host fs inp out = (K, out ++ ".key".toList)) ∧
    (∀ K : Buffer, fs.existsSync (out ++ ".key".toList) = false →
      fs.readFileSync (inp ++ ".key".toList) = some K →
      fallbackDecryption.key host fs inp out = (K, inp ++ ".key".toList)) ∧
    ((∀ i, i < (strippedInput inp).length →
        ".encrypted".toList.isPrefixOf (inp.drop i) = false) →
      fallbackDecryption.key host fs inp out =
        (firstReadableKey fs
          [ out ++ ".key".toList,
            inp ++ ".key".toList,
            strippedInput inp ++ ".key".toList,
            host.join (host.dirname inp) "encryption_key.bin".toList ]).getD
          (defaultKey, "default key".toList) ∧
      (∀ K : Buffer, fs.existsSync (out ++ ".key".toList) = false →
        fs.existsSync (inp ++ ".key".toList) = false →
        fs.readFileSync (strippedInput inp ++ ".key".toList) = some K →
        fallbackDecryption.key host fs inp out = (K, strippedInput inp ++ ".key".toList)) ∧
      (∀ K : Buffer, fs.existsSync (out ++ ".key".toList) = false →
        fs.existsSync (inp ++ ".key".toList) = false →
        fs.existsSync (strippedInput inp ++ ".key".toList) = false →
        fs.readFileSync (host.join (host.dirname inp) "encryption_key.bin".toList) = some K →
        fallbackDecryption.key host fs inp out
          = (K, host.join (host.dirname inp) "encryption_key.bin".toList))) ∧
    (∀ D : Buffer, fs.readFileSync inp = some D →
      (fs.existsSync (host.dirname out) = true ∨
        fs.throws (FsCall.mkdirSync (host.dirname out)) = false) →
      fs.throws (FsCall.writeFileSync out) = false →
      fs.throws (FsCall.writeFileSync (out ++ ".verified".toList)) = false →
      ∃ fs1, fallbackDecryption host fs inp out = (true, fs1) ∧
        fs1.files out = some (xorLoop (fallbackDecryption.key host fs inp out).1 0 D)) := by
  refine ⟨fun K hk => key_of_output_key host fs inp out K hk,
    fun K hno hk => key_of_input_key host fs inp out K hno hk, ?_,
    fun D hread hdir hw hv => fallbackDecryption_ok host fs inp out D hread hdir hw hv⟩
  intro hfirst
  have hchar : fallbackDecryption.key host fs inp out =
      (firstReadableKey fs
        [ out ++ ".key".toList,
          inp ++ ".key".toList,
          strippedInput inp ++ ".key".toList,
          host.join (host.dirname inp) "encryption_key.bin".toList ]).getD
        (defaultKey, "default key".toList) := by
    unfold fallbackDecryption.key
    rw [readKey_candidates, replace_eq_strippedInput inp hfirst, readKey_eq_firstReadable]
    cases firstReadableKey fs
        [ out ++ ".key".toList,
          inp ++ ".key".toList,
          strippedInput inp ++ ".key".toList,
          host.join (host.dirname inp) "encryption_key.bin".toList ] <;>
      rfl
  refine ⟨hchar, ?_, ?_⟩
  · intro K h1 h2 hk
    rw [hchar]
    unfold firstReadableKey
    simp only [List.find?_cons, h1, h2, Bool.false_and, existsSync_of_read fs _ K hk, hk,
      Option.isSome_some, Bool.and_self, Option.map_some', Option.getD_some]
  · intro K h1 h2 h3 hk
    rw [hchar]
    unfold firstReadableKey
    simp only [List.find?_cons, h1, h2, h3, Bool.false_and, existsSync_of_read fs _ K hk, hk,
      Option.isSome_some, Bool.and_self, Option.map_some', Option.getD_some]

/-- Key discovery for `d/g.encrypted`: on `lateKeysFs`, where only `d/g.key` (byte 8) and
`d/encryption_key.bin` (byte 9) exist, the key is byte 8 of `d/g.key`; on `twoKeysFs`, where
`d/g.encrypted.key` (byte 7) and `d/encryption_key.bin` exist, the key is byte 7. -/
theorem key_discovery_order_witness :
    strippedInput "d/g.encrypted".toList = "d/g".toList ∧
    (∀ i, i < (strippedInput "d/g.encrypted".toList).length →
      ".encrypted".toList.isPrefixOf ("d/g.encrypted".toList.drop i) = false) ∧
    lateKeysFs.readFileSync (posixHost.join (posixHost.dirname "d/g.encrypted".toList)
      "encryption_key.bin".toList) = some [9] ∧
    fallbackDecryption.key posixHost lateKeysFs "d/g.encrypted".toList "d/out".toList
      = ([8], "d/g.key".toList) ∧
    fallbackDecryption.key posixHost twoKeysFs "d/g.encrypted".toList "d/out".toList
      = ([7], "d/g.encrypted.key".toList) :=
  ⟨by decide, by decide, by decide,
   (((key_discovery_order posixHost lateKeysFs "d/g.encrypted".toList "d/out".toList).2.2.1
      (by decide)).2.1 [8] (by decide) (by decide) (by decide)).trans (by decide),
   ((key_discovery_order posixHost twoKeysFs "d/g.encrypted".toList "d/out".toList).2.1
      [7] (by decide) (by decide)).trans (by decide)⟩

end DDE
